import Mathlib

/-!
A shallow embedding of the core of the walkdir crate (src/lib.rs): the
directory-entry record, the open/closed directory listing handle, the
traversal state machine with its bounded pool of open handles, cycle
detection, deferred post-order emission, and the filter adapter.

Paths are modelled as lists of components; the platform primitives
(stat via fs::metadata, fs::read_dir) are an explicit FileSystem oracle.
Machine integers (usize) are modelled as Nat; the places where the Rust
source performs a checked operation that can panic (checked_sub().unwrap())
are modelled with Option, where none stands for the panic.
-/

namespace Walkdir

/-- A filesystem path, as a list of components (PathBuf in the source). -/
abbrev Path := List String

/-- Opaque payload of a std::io::Error. -/
abbrev IoErr := Nat

/-- File types distinguished by the traversal (std::fs::FileType). -/
inductive FileType where
  | regular
  | directory
  | symlink
  | other
deriving DecidableEq, Repr

/-- FileType::is_dir. -/
def FileType.is_dir : FileType → Bool
  | .directory => true
  | _ => false

/-- FileType::is_symlink. -/
def FileType.is_symlink : FileType → Bool
  | .symlink => true
  | _ => false

/-- Result of a stat call: file type plus the (dev, ino) identity pair. -/
structure Metadata where
  ty : FileType
  ino : Nat
  dev : Nat
deriving DecidableEq, Repr

instance {ε α : Type u} [DecidableEq ε] [DecidableEq α] :
    DecidableEq (Except ε α) := fun a b =>
  match a, b with
  | .error e₁, .error e₂ =>
    if h : e₁ = e₂ then .isTrue (by rw [h]) else .isFalse (by simp [h])
  | .error _, .ok _ => .isFalse (by simp)
  | .ok _, .error _ => .isFalse (by simp)
  | .ok a₁, .ok a₂ =>
    if h : a₁ = a₂ then .isTrue (by rw [h]) else .isFalse (by simp [h])

/-- A raw entry as yielded by fs::ReadDir: its full path (the parent joined
with the entry name), the result of ent.file_type(), and its inode. -/
structure RawDirEntry where
  path : Path
  ty : Except IoErr FileType
  ino : Nat
deriving DecidableEq, Repr

/-- The platform oracle: fs::metadata (stat following links) and
fs::read_dir (opening a directory handle; the stream of raw results). -/
structure FileSystem where
  metadata : Path → Except IoErr Metadata
  read_dir : Path → Except IoErr (List (Except IoErr RawDirEntry))

/-- The ErrorInner enum of the source: an IO error with an optional path,
or a symlink loop with the ancestor and child paths. -/
inductive ErrorInner where
  | io (path : Option Path) (err : IoErr)
  | loop (ancestor : Path) (child : Path)
deriving DecidableEq, Repr

/-- The walkdir Error type: depth plus inner payload. -/
structure Error where
  depth : Nat
  inner : ErrorInner
deriving DecidableEq, Repr

/-- Error::from_path. -/
def Error.from_path (depth : Nat) (pb : Path) (err : IoErr) : Error :=
  ⟨depth, .io (some pb) err⟩

/-- Error::from_io (no path attributable). -/
def Error.from_io_err (depth : Nat) (err : IoErr) : Error :=
  ⟨depth, .io none err⟩

/-- The DirEntry record yielded by the iterator. -/
structure DirEntry where
  path : Path
  ty : FileType
  follow_link : Bool
  depth : Nat
  ino : Nat
deriving DecidableEq, Repr

/-- DirEntry::from_entry: promote a raw readdir entry at the given depth;
errors from ent.file_type() are wrapped with the entry's path. -/
def DirEntry.from_entry (depth : Nat) (ent : RawDirEntry) :
    Except Error DirEntry :=
  match ent.ty with
  | .error err => .error (Error.from_path depth ent.path err)
  | .ok ty => .ok ⟨ent.path, ty, false, depth, ent.ino⟩

/-- DirEntry::from_link: stat the path (fs::metadata, which resolves
symlinks) and build a record marked follow_link := true. -/
def DirEntry.from_link (fs : FileSystem) (depth : Nat) (pb : Path) :
    Except Error DirEntry :=
  match fs.metadata pb with
  | .error err => .error (Error.from_path depth pb err)
  | .ok md => .ok ⟨pb, md.ty, true, depth, md.ino⟩

/-- is_same_file (src/same_file.rs, unix): stat both paths and compare the
(dev, ino) identity pairs. -/
def is_same_file (fs : FileSystem) (p1 p2 : Path) : Except IoErr Bool :=
  match fs.metadata p1 with
  | .error e => .error e
  | .ok md1 =>
    match fs.metadata p2 with
    | .error e => .error e
    | .ok md2 => .ok (decide ((md1.dev, md1.ino) = (md2.dev, md2.ino)))

/-- The DirList enum: an opened handle (its depth, and either the live
stream of remaining raw entries or the deferred open error, held in an
Option so it is yielded exactly once), or a closed handle (the remaining
entries read into memory). -/
inductive DirList where
  | opened (depth : Nat)
      (it : Except (Option Error) (List (Except IoErr RawDirEntry)))
  | closed (entries : List (Except Error DirEntry))
deriving DecidableEq, Repr

/-- The per-item promotion an Opened DirList applies in its next method. -/
def DirList.promote (depth : Nat) :
    Except IoErr RawDirEntry → Except Error DirEntry
  | .ok ent => DirEntry.from_entry (depth + 1) ent
  | .error err => .error (Error.from_io_err (depth + 1) err)

/-- Iterator::next for DirList: the advanced handle and the produced item. -/
def DirList.next : DirList → DirList × Option (Except Error DirEntry)
  | .closed [] => (.closed [], none)
  | .closed (r :: rest) => (.closed rest, some r)
  | .opened depth (.error optErr) =>
      (.opened depth (.error none), optErr.map Except.error)
  | .opened depth (.ok []) => (.opened depth (.ok []), none)
  | .opened depth (.ok (r :: rest)) =>
      (.opened depth (.ok rest), some (DirList.promote depth r))

/-- The list of items the handle would still produce (self.collect() in
the source, i.e. repeatedly calling next until exhaustion). -/
def DirList.collect : DirList → List (Except Error DirEntry)
  | .closed entries => entries
  | .opened _ (.error none) => []
  | .opened _ (.error (some e)) => [.error e]
  | .opened depth (.ok rd) => rd.map (DirList.promote depth)

/-- DirList::close: drain an opened handle into memory, preserving order;
a no-op on an already closed handle. -/
def DirList.close (d : DirList) : DirList :=
  match d with
  | .opened _ _ => .closed d.collect
  | .closed _ => d

/-- Whether the handle is in the Opened state. -/
def DirList.isOpened : DirList → Bool
  | .opened _ _ => true
  | .closed _ => false

/-- The frozen configuration (WalkDirOptions in the source). -/
structure WalkDirOptions where
  follow_links : Bool
  max_open : Nat
  min_depth : Nat
  max_depth : Nat
  sorter : Option (DirEntry → DirEntry → Ordering)
  contents_first : Bool

/-- The traversal state machine (IntoIter in the source). -/
structure IntoIter where
  opts : WalkDirOptions
  start : Option Path
  stack_list : List DirList
  stack_path : List Path
  oldest_opened : Nat
  depth : Nat
  deferred_dirs : List DirEntry

/-- WalkDir::into_iter: the freshly seeded state machine. -/
def intoIter (opts : WalkDirOptions) (root : Path) : IntoIter :=
  ⟨opts, some root, [], [], 0, 0, []⟩

/-- Replace the element at an index, leaving the list unchanged when the
index is out of range (used for the in-place close of stack_list at
oldest_opened). -/
def listModify (f : α → α) : Nat → List α → List α
  | _, [] => []
  | 0, a :: as => f a :: as
  | n + 1, a :: as => a :: listModify f n as

/-- The extended comparator IntoIter::push builds around the user sorter:
both Ok compares with the user function, two errors compare equal, and an
Ok compares greater than an Err. -/
def extCmp (cmp : DirEntry → DirEntry → Ordering) :
    Except Error DirEntry → Except Error DirEntry → Ordering
  | .ok a, .ok b => cmp a b
  | .error _, .error _ => .eq
  | .ok _, .error _ => .gt
  | .error _, .ok _ => .lt

/-- Insert an element into a sorted list after every element that compares
at-most-equal, keeping the insertion stable. -/
def insertSorted (le : α → α → Bool) (a : α) : List α → List α
  | [] => [a]
  | b :: bs => if le b a then b :: insertSorted le a bs else a :: b :: bs

/-- A stable insertion sort. Vec::sort_by is a stable sort, and under a
total preorder the stable sort is unique, so this models it exactly. -/
def stableSort (le : α → α → Bool) (l : List α) : List α :=
  l.foldl (fun s a => insertSorted le a s) []

/-- The stable sort (Vec::sort_by) under the extended comparator. -/
def sortEntries (cmp : DirEntry → DirEntry → Ordering)
    (es : List (Except Error DirEntry)) : List (Except Error DirEntry) :=
  stableSort (fun a b => extCmp cmp a b ≠ .gt) es

/-- IntoIter::skippable: the current depth is outside the depth window. -/
def IntoIter.skippable (it : IntoIter) : Bool :=
  it.depth < it.opts.min_depth || it.opts.max_depth < it.depth

/-- IntoIter::push. When stack_list.len() - oldest_opened (a checked
subtraction whose failure panics, modelled by none) reaches max_open, the
handle at oldest_opened is closed and oldest_opened advances. Then a
handle for the directory is opened (an open error is stored for deferred
yielding); with a sorter the handle is eagerly drained, sorted and pushed
Closed; the directory path is pushed on stack_path when following links. -/
def IntoIter.push (fs : FileSystem) (it : IntoIter) (dent : DirEntry) :
    Option IntoIter :=
  if it.oldest_opened ≤ it.stack_list.length then
    let it1 :=
      if it.stack_list.length - it.oldest_opened = it.opts.max_open then
        { it with
            stack_list := listModify DirList.close it.oldest_opened
              it.stack_list,
            oldest_opened := it.oldest_opened + 1 }
      else it
    let rd : Except (Option Error) (List (Except IoErr RawDirEntry)) :=
      match fs.read_dir dent.path with
      | .ok entries => .ok entries
      | .error err =>
          .error (some (Error.from_path it1.depth dent.path err))
    let list := DirList.opened it1.depth rd
    let list :=
      match it1.opts.sorter with
      | some cmp => DirList.closed (sortEntries cmp list.collect)
      | none => list
    some { it1 with
      stack_list := it1.stack_list ++ [list],
      stack_path :=
        if it1.opts.follow_links then it1.stack_path ++ [dent.path]
        else it1.stack_path }
  else none

/-- IntoIter::pop: remove the top of stack_list (and of stack_path when
following links) and clamp oldest_opened to the new length. Callers only
invoke this with a non-empty stack, which is what the expects in the
source assert. -/
def IntoIter.pop (it : IntoIter) : IntoIter :=
  { it with
      stack_list := it.stack_list.dropLast,
      stack_path :=
        if it.opts.follow_links then it.stack_path.dropLast
        else it.stack_path,
      oldest_opened := min it.oldest_opened it.stack_list.dropLast.length }

/-- IntoIter::skip_current_dir: pop the top of each stack when non-empty.
Note that, unlike pop, this does not re-clamp oldest_opened. -/
def IntoIter.skip_current_dir (it : IntoIter) : IntoIter :=
  { it with
      stack_list := it.stack_list.dropLast,
      stack_path := it.stack_path.dropLast }

/-- The loop body of IntoIter::check_loop over the reversed path stack. -/
def checkLoopGo (fs : FileSystem) (depth : Nat) (child : Path) :
    List Path → Except Error Unit
  | [] => .ok ()
  | ancestor :: rest =>
    match is_same_file fs ancestor child with
    | .error err => .error (Error.from_io_err depth err)
    | .ok true => .error ⟨depth, .loop ancestor child⟩
    | .ok false => checkLoopGo fs depth child rest

/-- IntoIter::check_loop: walk stack_path from the most recent ancestor
toward the root, asking the identity oracle about each. -/
def IntoIter.check_loop (it : IntoIter) (fs : FileSystem) (child : Path) :
    Except Error Unit :=
  checkLoopGo fs it.depth child it.stack_path.reverse

/-- IntoIter::follow: re-stat through the link, and when the target is a
directory run the cycle check. -/
def IntoIter.follow (it : IntoIter) (fs : FileSystem) (dent : DirEntry) :
    Except Error DirEntry :=
  match DirEntry.from_link fs it.depth dent.path with
  | .error e => .error e
  | .ok dent' =>
    if dent'.ty.is_dir then
      match it.check_loop fs dent'.path with
      | .error e => .error e
      | .ok _ => .ok dent'
    else .ok dent'

/-- IntoIter::handle_entry. Returns none when push panicked; otherwise the
updated state and, as in the source, either an item to yield now or none
(deferred directory or depth-window suppression). -/
def IntoIter.handle_entry (it : IntoIter) (fs : FileSystem)
    (dent : DirEntry) :
    Option (IntoIter × Option (Except Error DirEntry)) :=
  let r : Except Error DirEntry :=
    if it.opts.follow_links && dent.ty.is_symlink then it.follow fs dent
    else .ok dent
  match r with
  | .error e => some (it, some (.error e))
  | .ok dent =>
    let pushed : Option IntoIter :=
      if dent.ty.is_dir then it.push fs dent else some it
    match pushed with
    | none => none
    | some it2 =>
      if dent.ty.is_dir && it2.opts.contents_first then
        some ({ it2 with deferred_dirs := it2.deferred_dirs ++ [dent] },
              none)
      else if it2.skippable then some (it2, none)
      else some (it2, some (.ok dent))

/-- IntoIter::get_deferred_dir: when contents_first and depth is below the
deferred count, pop the most recent deferred directory; it is returned
unless the depth window suppresses it (in which case it is dropped). -/
def IntoIter.get_deferred_dir (it : IntoIter) : IntoIter × Option DirEntry :=
  if it.opts.contents_first then
    if it.depth < it.deferred_dirs.length then
      match it.deferred_dirs.getLast? with
      | some deferred =>
        let it2 := { it with deferred_dirs := it.deferred_dirs.dropLast }
        if !it2.skippable then (it2, some deferred) else (it2, none)
      | none => (it, none)
    else (it, none)
  else (it, none)

/-- Advance the top-of-stack handle (stack_list.last_mut().next() in the
source; the expect there is guarded by the loop condition). -/
def IntoIter.stackTopNext (it : IntoIter) :
    IntoIter × Option (Except Error DirEntry) :=
  match it.stack_list.getLast? with
  | none => (it, none)
  | some top =>
    let (top', r) := top.next
    ({ it with stack_list := it.stack_list.dropLast ++ [top'] }, r)

/-- The observable outcome of one IntoIter::next call. panicked models an
aborted process (a checked unwrap failed); fuelOut is an artifact of the
embedding (the loop did not finish within the given fuel). -/
inductive NextOutcome where
  | panicked
  | fuelOut
  | done
  | item (r : Except Error DirEntry)
deriving DecidableEq, Repr

/-- The while-loop of IntoIter::next, including the trailing
contents_first drain once the stack is empty. -/
def IntoIter.nextLoop (fs : FileSystem) :
    Nat → IntoIter → IntoIter × NextOutcome
  | 0, it => (it, .fuelOut)
  | fuel + 1, it =>
    if it.stack_list.isEmpty then
      if it.opts.contents_first then
        let it1 := { it with depth := it.stack_list.length }
        match it1.get_deferred_dir with
        | (it2, some dentry) => (it2, .item (.ok dentry))
        | (it2, none) => (it2, .done)
      else (it, .done)
    else
      let it1 := { it with depth := it.stack_list.length }
      match it1.get_deferred_dir with
      | (it2, some dentry) => (it2, .item (.ok dentry))
      | (it2, none) =>
        if it2.opts.max_depth < it2.depth then
          IntoIter.nextLoop fs fuel it2.pop
        else
          match it2.stackTopNext with
          | (it3, none) => IntoIter.nextLoop fs fuel it3.pop
          | (it3, some (.error err)) => (it3, .item (.error err))
          | (it3, some (.ok dent)) =>
            match it3.handle_entry fs dent with
            | none => (it3, .panicked)
            | some (it4, some result) => (it4, .item result)
            | some (it4, none) => IntoIter.nextLoop fs fuel it4

/-- IntoIter::next: consume start on the first call (statting the root via
from_link at depth 0), then run the loop. -/
def IntoIter.next (fs : FileSystem) (fuel : Nat) (it : IntoIter) :
    IntoIter × NextOutcome :=
  match it.start with
  | some start =>
    let it1 := { it with start := none }
    match DirEntry.from_link fs 0 start with
    | .error e => (it1, .item (.error e))
    | .ok dent =>
      match it1.handle_entry fs dent with
      | none => (it1, .panicked)
      | some (it2, some result) => (it2, .item result)
      | some (it2, none) => it2.nextLoop fs fuel
  | none => it.nextLoop fs fuel

/-- An observable operation a caller can perform between observation
points: a next call (with embedding fuel) or skip_current_dir. -/
inductive Op where
  | nextOp (fuel : Nat)
  | skipOp

/-- Apply one operation; none when the call panicked (no further
observable point exists). -/
def applyOp (fs : FileSystem) (op : Op) (it : IntoIter) : Option IntoIter :=
  match op with
  | .nextOp fuel =>
    match it.next fs fuel with
    | (_, .panicked) => none
    | (it', _) => some it'
  | .skipOp => some it.skip_current_dir

/-- Run a sequence of operations from a state. -/
def runOps (fs : FileSystem) : List Op → IntoIter → Option IntoIter
  | [], it => some it
  | op :: ops, it =>
    match applyOp fs op it with
    | none => none
    | some it' => runOps fs ops it'

/-- The outcomes of n successive next calls, each with the same fuel. -/
def runNexts (fs : FileSystem) (fuel : Nat) :
    Nat → IntoIter → List NextOutcome
  | 0, _ => []
  | n + 1, it =>
    let (it', o) := it.next fs fuel
    o :: runNexts fs fuel n it'

/-- The number of Opened handles on the stack. -/
def countOpen (l : List DirList) : Nat :=
  l.countP DirList.isOpened

/-- The FilterEntry adapter (predicate modelled as a pure function). -/
structure FilterEntry where
  it : IntoIter
  predicate : DirEntry → Bool

/-- FilterEntry::next. Besides the advanced adapter and outcome, this also
returns the list of entries the predicate was invoked on during the call,
so that which values reach the predicate is observable in the model. -/
def FilterEntry.next (fs : FileSystem) (innerFuel : Nat) :
    Nat → FilterEntry → FilterEntry × NextOutcome × List DirEntry
  | 0, f => (f, .fuelOut, [])
  | fuel + 1, f =>
    let (it', o) := f.it.next fs innerFuel
    match o with
    | .panicked => ({ f with it := it' }, .panicked, [])
    | .fuelOut => ({ f with it := it' }, .fuelOut, [])
    | .done => ({ f with it := it' }, .done, [])
    | .item (.error e) => ({ f with it := it' }, .item (.error e), [])
    | .item (.ok dent) =>
      if f.predicate dent then
        ({ f with it := it' }, .item (.ok dent), [dent])
      else
        let f' :=
          if dent.ty.is_dir then { f with it := it'.skip_current_dir }
          else { f with it := it' }
        let (f'', o', log) := FilterEntry.next fs innerFuel fuel f'
        (f'', o', dent :: log)

/-- The stream stored in the handle IntoIter::push opens: the raw stream on
success, or the deferred open error. -/
def pushedReadDir (fs : FileSystem) (it : IntoIter) (dent : DirEntry) :
    Except (Option Error) (List (Except IoErr RawDirEntry)) :=
  match fs.read_dir dent.path with
  | .ok entries => .ok entries
  | .error err => .error (some (Error.from_path it.depth dent.path err))

/-- The handle IntoIter::push places on the stack: opened, or eagerly
drained, sorted and closed when a sorter is configured. -/
def pushedList (fs : FileSystem) (it : IntoIter) (dent : DirEntry) : DirList :=
  match it.opts.sorter with
  | some cmp =>
    DirList.closed
      (sortEntries cmp (DirList.opened it.depth (pushedReadDir fs it dent)).collect)
  | none => DirList.opened it.depth (pushedReadDir fs it dent)

/-- The path stack after IntoIter::push. -/
def pushedPaths (it : IntoIter) (dent : DirEntry) : List Path :=
  if it.opts.follow_links then it.stack_path ++ [dent.path]
  else it.stack_path

/-- The state invariant maintained by the traversal: options are the ones
the iterator was built with and max_open is at least one; every handle
strictly below oldest_opened is Closed; the span between oldest_opened and
the stack length is bounded by max_open; and (when no sorter is set) every
handle from oldest_opened up is Opened. -/
def Inv (opts : WalkDirOptions) (it : IntoIter) : Prop :=
  it.opts = opts ∧
  1 ≤ it.opts.max_open ∧
  (∀ d ∈ it.stack_list.take it.oldest_opened, d.isOpened = false) ∧
  it.stack_list.length - it.oldest_opened ≤ it.opts.max_open ∧
  (it.opts.sorter = none →
    ∀ d ∈ it.stack_list.drop it.oldest_opened, d.isOpened = true)

/-- Two configurations that agree on everything except max_open, both with
max_open at least one. -/
def SimOpts (o₁ o₂ : WalkDirOptions) : Prop :=
  o₁.follow_links = o₂.follow_links ∧
  o₁.min_depth = o₂.min_depth ∧
  o₁.max_depth = o₂.max_depth ∧
  o₁.sorter = o₂.sorter ∧
  o₁.contents_first = o₂.contents_first ∧
  1 ≤ o₁.max_open ∧ 1 ≤ o₂.max_open

/-- The simulation relation for max_open independence: the two states agree
on everything observable through the yielded sequence; the stacks may hold
handles in different open/closed states as long as the remaining items of
each slot agree; and oldest_opened stays within the stack (which holds for
every state reached by next calls alone). -/
def Sim (it₁ it₂ : IntoIter) : Prop :=
  SimOpts it₁.opts it₂.opts ∧
  it₁.start = it₂.start ∧
  it₁.stack_list.map DirList.collect = it₂.stack_list.map DirList.collect ∧
  it₁.stack_path = it₂.stack_path ∧
  it₁.depth = it₂.depth ∧
  it₁.deferred_dirs = it₂.deferred_dirs ∧
  it₁.oldest_opened ≤ it₁.stack_list.length ∧
  it₂.oldest_opened ≤ it₂.stack_list.length

/-- Modelled from the spec: a finite filesystem tree with a device number
per node, for the same_file_system mode. The repository declares the
option (src/walk.rs, WalkDir::same_file_system) but its iterator is
unimplemented, so the traversal behavior is modelled from the spec text:
record the device of the root at seeding; when about to descend into a
directory, check its device and silently skip the descent (no error) when
it differs. -/
inductive FsNode where
  | file (name : String) (dev : Nat)
  | dir (name : String) (dev : Nat) (children : List FsNode)

/-- The device number of a node. -/
def FsNode.dev : FsNode → Nat
  | .file _ d => d
  | .dir _ d _ => d

/-- The name of a node. -/
def FsNode.name : FsNode → String
  | .file n _ => n
  | .dir n _ _ => n

/-- Whether a node is a directory. -/
def FsNode.isDir : FsNode → Bool
  | .file _ _ => false
  | .dir _ _ _ => true

mutual

/-- Modelled from the spec: pre-order walk under same_file_system mode.
Every visited node yields its record (path, device, is-directory); a
directory is descended into only when its device equals the recorded root
device. -/
def walkSameFs (rootDev : Nat) (pre : Path) : FsNode → List (Path × Nat × Bool)
  | .file n d => [(pre ++ [n], d, false)]
  | .dir n d cs =>
    (pre ++ [n], d, true) ::
      (if d = rootDev then walkSameFsList rootDev (pre ++ [n]) cs else [])

/-- The concatenated walks of a list of sibling nodes. -/
def walkSameFsList (rootDev : Nat) (pre : Path) :
    List FsNode → List (Path × Nat × Bool)
  | [] => []
  | c :: cs => walkSameFs rootDev pre c ++ walkSameFsList rootDev pre cs

end

/-- The walk seeded at a root node: the root's own device is recorded. -/
def walkSameFsTop (t : FsNode) : List (Path × Nat × Bool) :=
  walkSameFs t.dev [] t

/-! Concrete fixtures used by counterexamples and witnesses. -/

/-- A tree of directories r/a/b/c plus r/d, all on one device. -/
def fsDeep : FileSystem where
  metadata p :=
    if p = ["r"] then .ok ⟨.directory, 10, 0⟩ else .error 0
  read_dir p :=
    if p = ["r"] then
      .ok [.ok ⟨["r", "a"], .ok .directory, 11⟩,
           .ok ⟨["r", "d"], .ok .directory, 12⟩]
    else if p = ["r", "a"] then
      .ok [.ok ⟨["r", "a", "b"], .ok .directory, 13⟩]
    else if p = ["r", "a", "b"] then
      .ok [.ok ⟨["r", "a", "b", "c"], .ok .directory, 14⟩]
    else .ok []

/-- Defaults except max_open := 1. -/
def optsNarrow : WalkDirOptions := ⟨false, 1, 0, 1000000, none, false⟩

/-- The fresh iterator over fsDeep with max_open := 1. -/
def itNarrow : IntoIter := intoIter optsNarrow ["r"]

/-- Three next calls followed by two skip_current_dir calls. -/
def opsSkipSkip : List Op :=
  [.nextOp 20, .nextOp 20, .nextOp 20, .skipOp, .skipOp]

/-- The state reached by opsSkipSkip (total by construction). -/
def itSkewed : IntoIter :=
  (runOps fsDeep opsSkipSkip itNarrow).getD (intoIter optsNarrow [])

/-- A tree r/a/f for the contents_first and skip_current_dir interaction. -/
def fsPost : FileSystem where
  metadata p :=
    if p = ["r"] then .ok ⟨.directory, 20, 0⟩ else .error 0
  read_dir p :=
    if p = ["r"] then .ok [.ok ⟨["r", "a"], .ok .directory, 21⟩]
    else if p = ["r", "a"] then
      .ok [.ok ⟨["r", "a", "f"], .ok .regular, 22⟩]
    else .ok []

/-- Defaults except contents_first := true. -/
def optsPost : WalkDirOptions := ⟨false, 10, 0, 1000000, none, true⟩

/-- The state of the contents_first iterator after one next (yielding the
file r/a/f) and one skip_current_dir (popping the listing of r/a). -/
def itPostSkipped : IntoIter :=
  (runOps fsPost [.nextOp 20, .skipOp] (intoIter optsPost ["r"])).getD
    (intoIter optsPost [])

/-- A directory r holding a file r/z plus one raw readdir error. -/
def fsSortErr : FileSystem where
  metadata p :=
    if p = ["r"] then .ok ⟨.directory, 30, 0⟩ else .error 0
  read_dir p :=
    if p = ["r"] then
      .ok [.ok ⟨["r", "z"], .ok .regular, 31⟩, .error 7]
    else .ok []

/-- A comparator over entries (by inode). -/
def cmpByIno (a b : DirEntry) : Ordering := compare a.ino b.ino

/-- Defaults except a sorter is set. -/
def optsSorted : WalkDirOptions := ⟨false, 10, 0, 1000000, some cmpByIno, false⟩

/-- A directory r containing a symlink r/s that resolves back to r. -/
def fsLoop : FileSystem where
  metadata p :=
    if p = ["r"] then .ok ⟨.directory, 10, 0⟩
    else if p = ["r", "s"] then .ok ⟨.directory, 10, 0⟩
    else .error 0
  read_dir p :=
    if p = ["r"] then .ok [.ok ⟨["r", "s"], .ok .symlink, 15⟩]
    else .ok []

/-- Defaults except follow_links := true. -/
def optsFollow : WalkDirOptions := ⟨true, 10, 0, 1000000, none, false⟩

/-- The follow-links iterator over fsLoop after yielding the root. -/
def itAtLoop : IntoIter := ((intoIter optsFollow ["r"]).next fsLoop 20).1

/-- A directory r with a subdirectory r/bad that cannot be opened. -/
def fsBadDir : FileSystem where
  metadata p :=
    if p = ["r"] then .ok ⟨.directory, 40, 0⟩ else .error 0
  read_dir p :=
    if p = ["r"] then
      .ok [.ok ⟨["r", "bad"], .ok .directory, 41⟩,
           .ok ⟨["r", "z"], .ok .regular, 42⟩]
    else if p = ["r", "bad"] then .error 13
    else .ok []

/-- Default options (as WalkDir::new sets them, with unbounded depth). -/
def optsDefault : WalkDirOptions := ⟨false, 10, 0, 1000000, none, false⟩

/-- The default-options iterator over fsBadDir after yielding the root. -/
def itAtBad : IntoIter := ((intoIter optsDefault ["r"]).next fsBadDir 20).1

/-- A root whose stat fails outright. -/
def fsBadRoot : FileSystem where
  metadata _ := .error 99
  read_dir _ := .ok []

/-- A tree with one device boundary: r (dev 0) contains the directory m
(dev 1) which contains a file f. -/
def treeBoundary : FsNode :=
  .dir "r" 0 [.dir "m" 1 [.file "f" 1]]

/-! Basic facts about listing handles. -/

theorem DirList.collect_close (d : DirList) : d.close.collect = d.collect := by
  cases d <;> rfl

theorem DirList.next_snd (d : DirList) : d.next.2 = d.collect.head? := by
  rcases d with ⟨dep, optE | (_ | ⟨r, rest⟩)⟩ | es
  · rcases optE with _ | e <;> rfl
  · rfl
  · rfl
  · rcases es with _ | ⟨r, rest⟩ <;> rfl

theorem DirList.next_fst (d : DirList) : d.next.1.collect = d.collect.tail := by
  rcases d with ⟨dep, optE | (_ | ⟨r, rest⟩)⟩ | es
  · rcases optE with _ | e <;> rfl
  · rfl
  · rfl
  · rcases es with _ | ⟨r, rest⟩ <;> rfl

theorem DirList.next_isOpened (d : DirList) :
    d.next.1.isOpened = d.isOpened := by
  rcases d with ⟨dep, optE | (_ | ⟨r, rest⟩)⟩ | es
  · rcases optE with _ | e <;> rfl
  · rfl
  · rfl
  · rcases es with _ | ⟨r, rest⟩ <;> rfl

theorem DirList.close_isOpened (d : DirList) : d.close.isOpened = false := by
  cases d <;> rfl

/-! Facts about listModify. -/

theorem listModify_nil (f : α → α) (n : Nat) : listModify f n ([] : List α) = [] := by
  cases n <;> rfl

theorem length_listModify (f : α → α) (n : Nat) (l : List α) :
    (listModify f n l).length = l.length := by
  induction l generalizing n with
  | nil => rw [listModify_nil]
  | cons a as ih =>
    cases n with
    | zero => rfl
    | succ n => simp [listModify, ih]

theorem map_listModify (f : α → α) (g : α → β) (hg : ∀ x, g (f x) = g x)
    (n : Nat) (l : List α) : (listModify f n l).map g = l.map g := by
  induction l generalizing n with
  | nil => rw [listModify_nil]
  | cons a as ih =>
    cases n with
    | zero => simp [listModify, hg]
    | succ n => simp [listModify, ih]

theorem drop_succ_listModify (f : α → α) (n : Nat) (l : List α) :
    (listModify f n l).drop (n + 1) = l.drop (n + 1) := by
  induction l generalizing n with
  | nil => rw [listModify_nil]
  | cons a as ih =>
    cases n with
    | zero => rfl
    | succ n => simpa [listModify] using ih n

theorem take_succ_listModify_closed (l : List DirList) (o : Nat)
    (h : ∀ d ∈ l.take o, d.isOpened = false) :
    ∀ d ∈ (listModify DirList.close o l).take (o + 1), d.isOpened = false := by
  induction l generalizing o with
  | nil => intro d hd; rw [listModify_nil] at hd; simp at hd
  | cons a as ih =>
    cases o with
    | zero =>
      intro d hd
      simp [listModify] at hd
      simp [hd, DirList.close_isOpened]
    | succ o =>
      intro d hd
      simp only [listModify, List.take_succ_cons, List.mem_cons] at hd
      rcases hd with rfl | hd
      · exact h d (by simp)
      · exact ih o (fun x hx => h x (by simp [List.take_succ_cons, hx])) d hd

/-! Membership helpers for take and drop. -/

theorem take_subset_take {m n : Nat} (h : m ≤ n) (l : List α) :
    l.take m ⊆ l.take n := by
  intro x hx
  have he : l.take m = (l.take n).take m := by
    rw [List.take_take, Nat.min_eq_left h]
  rw [he] at hx
  exact List.take_subset _ _ hx

theorem mem_take_dropLast {l : List α} {o : Nat} {d : α}
    (hd : d ∈ l.dropLast.take o) : d ∈ l.take o := by
  rw [List.dropLast_eq_take, List.take_take] at hd
  exact take_subset_take (Nat.min_le_left _ _) l hd

theorem mem_drop_dropLast {l : List α} {o : Nat} {d : α}
    (hd : d ∈ l.dropLast.drop o) : d ∈ l.drop o := by
  rw [List.dropLast_eq_take, List.drop_take] at hd
  exact List.take_subset _ _ hd

theorem mem_drop_of_succ {l : List α} {o : Nat} {d : α}
    (hd : d ∈ l.drop (o + 1)) : d ∈ l.drop o := by
  have he : l.drop (o + 1) = (l.drop o).drop 1 := by
    rw [List.drop_drop]
  rw [he] at hd
  exact List.drop_subset _ _ hd

theorem getLast_mem_drop {l : List α} {o : Nat} {d : α}
    (hlast : l.getLast? = some d) (ho : o < l.length) : d ∈ l.drop o := by
  have hne : ¬ l.length ≤ o := by omega
  have he : (l.drop o).getLast? = some d := by
    rw [List.getLast?_drop, if_neg hne, hlast]
  exact List.mem_of_mem_getLast? he

/-! The open-handle count is bounded by the span above oldest_opened. -/

theorem countOpen_le_of_take_closed (l : List DirList) (o : Nat)
    (h : ∀ d ∈ l.take o, d.isOpened = false) :
    countOpen l ≤ l.length - o := by
  have h0 : (l.take o).countP DirList.isOpened = 0 := by
    rw [List.countP_eq_zero]
    intro a ha
    simp [h a ha]
  have hsplit : countOpen l =
      (l.take o).countP DirList.isOpened +
        (l.drop o).countP DirList.isOpened := by
    rw [countOpen, ← List.countP_append, List.take_append_drop]
  rw [hsplit, h0, Nat.zero_add]
  calc (l.drop o).countP DirList.isOpened ≤ (l.drop o).length :=
        List.countP_le_length _
    _ = l.length - o := List.length_drop o l

/-! Characterization of IntoIter::push. -/

theorem push_eq (fs : FileSystem) (it : IntoIter) (dent : DirEntry)
    (hg : it.oldest_opened ≤ it.stack_list.length) :
    it.push fs dent = some (
      if it.stack_list.length - it.oldest_opened = it.opts.max_open then
        { it with
            stack_list :=
              listModify DirList.close it.oldest_opened it.stack_list
                ++ [pushedList fs it dent],
            oldest_opened := it.oldest_opened + 1,
            stack_path := pushedPaths it dent }
      else
        { it with
            stack_list := it.stack_list ++ [pushedList fs it dent],
            stack_path := pushedPaths it dent }) := by
  rcases it with ⟨opts, st, sl, sp, oo, dp, dd⟩
  simp only [IntoIter.push, hg, if_pos]
  rcases hrd : fs.read_dir dent.path with err | entries <;>
    rcases hs : opts.sorter with _ | cmp <;>
      by_cases hcap : sl.length - oo = opts.max_open <;>
        simp [hcap, pushedList, pushedPaths, pushedReadDir, hrd, hs]

theorem push_none (fs : FileSystem) (it : IntoIter) (dent : DirEntry)
    (hg : ¬ it.oldest_opened ≤ it.stack_list.length) :
    it.push fs dent = none := by
  simp [IntoIter.push, hg]

/-! Preservation of the state invariant. -/

theorem inv_of_eq {opts : WalkDirOptions} {it it' : IntoIter} (h : Inv opts it)
    (h1 : it'.opts = it.opts) (h2 : it'.stack_list = it.stack_list)
    (h3 : it'.oldest_opened = it.oldest_opened) : Inv opts it' := by
  obtain ⟨hopts, hmax, hclosed, hspan, hopen⟩ := h
  exact ⟨h1.trans hopts, h1 ▸ hmax, h2 ▸ h3 ▸ hclosed,
    by rw [h1, h2, h3]; exact hspan, by rw [h1, h2, h3]; exact hopen⟩

theorem inv_push {opts : WalkDirOptions} {fs : FileSystem}
    {it it' : IntoIter} {dent : DirEntry}
    (h : Inv opts it) (hp : it.push fs dent = some it') : Inv opts it' := by
  obtain ⟨hopts, hmax, hclosed, hspan, hopen⟩ := h
  by_cases hg : it.oldest_opened ≤ it.stack_list.length
  · rw [push_eq fs it dent hg] at hp
    by_cases hcap :
        it.stack_list.length - it.oldest_opened = it.opts.max_open
    · rw [if_pos hcap] at hp
      have hx := Option.some.inj hp
      subst hx
      have hol : it.oldest_opened < it.stack_list.length := by omega
      refine ⟨hopts, hmax, ?_, ?_, ?_⟩
      · have hlen : it.oldest_opened + 1 ≤
            (listModify DirList.close it.oldest_opened it.stack_list).length := by
          rw [length_listModify]; omega
        intro d hd
        rw [List.take_append_of_le_length hlen] at hd
        exact take_succ_listModify_closed _ _ hclosed d hd
      · simp only [List.length_append, length_listModify, List.length_singleton]
        omega
      · intro hs d hd
        rw [List.drop_append_eq_append_drop] at hd
        rcases List.mem_append.1 hd with hd' | hd'
        · rw [drop_succ_listModify] at hd'
          exact hopen hs d (mem_drop_of_succ hd')
        · have hd2 : d ∈ [pushedList fs it dent] := List.drop_subset _ _ hd'
          simp only [List.mem_singleton] at hd2
          subst hd2
          have hs' : it.opts.sorter = none := hs
          simp only [pushedList, hs', DirList.isOpened]
    · rw [if_neg hcap] at hp
      have hx := Option.some.inj hp
      subst hx
      refine ⟨hopts, hmax, ?_, ?_, ?_⟩
      · intro d hd
        rw [List.take_append_of_le_length hg] at hd
        exact hclosed d hd
      · simp only [List.length_append, List.length_singleton]
        omega
      · intro hs d hd
        rw [List.drop_append_eq_append_drop] at hd
        rcases List.mem_append.1 hd with hd' | hd'
        · exact hopen hs d hd'
        · have hd2 : d ∈ [pushedList fs it dent] := List.drop_subset _ _ hd'
          simp only [List.mem_singleton] at hd2
          subst hd2
          have hs' : it.opts.sorter = none := hs
          simp only [pushedList, hs', DirList.isOpened]
  · rw [push_none fs it dent hg] at hp
    exact absurd hp (by simp)

theorem inv_pop {opts : WalkDirOptions} {it : IntoIter} (h : Inv opts it) :
    Inv opts it.pop := by
  obtain ⟨hopts, hmax, hclosed, hspan, hopen⟩ := h
  refine ⟨hopts, hmax, ?_, ?_, ?_⟩
  · intro d hd
    have hd1 := take_subset_take (Nat.min_le_left _ _) _ hd
    exact hclosed d (mem_take_dropLast hd1)
  · simp only [IntoIter.pop, List.length_dropLast]
    omega
  · intro hs d hd
    simp only [IntoIter.pop] at hd
    by_cases hc : it.oldest_opened ≤ it.stack_list.dropLast.length
    · rw [Nat.min_eq_left hc] at hd
      exact hopen hs d (mem_drop_dropLast hd)
    · have hnil : it.stack_list.dropLast.drop
          (min it.oldest_opened it.stack_list.dropLast.length) = [] := by
        apply List.drop_eq_nil_of_le
        omega
      rw [hnil] at hd
      simp at hd

theorem inv_skip {opts : WalkDirOptions} {it : IntoIter} (h : Inv opts it) :
    Inv opts it.skip_current_dir := by
  obtain ⟨hopts, hmax, hclosed, hspan, hopen⟩ := h
  refine ⟨hopts, hmax, ?_, ?_, ?_⟩
  · intro d hd
    exact hclosed d (mem_take_dropLast hd)
  · simp only [IntoIter.skip_current_dir, List.length_dropLast]
    omega
  · intro hs d hd
    exact hopen hs d (mem_drop_dropLast hd)

theorem inv_stackTopNext {opts : WalkDirOptions} {it : IntoIter}
    (h : Inv opts it) : Inv opts it.stackTopNext.1 := by
  obtain ⟨hopts, hmax, hclosed, hspan, hopen⟩ := h
  rcases hlast : it.stack_list.getLast? with _ | top
  · simp only [IntoIter.stackTopNext, hlast]
    exact ⟨hopts, hmax, hclosed, hspan, hopen⟩
  · have hne : it.stack_list ≠ [] := by
      intro hnil
      rw [hnil] at hlast
      simp at hlast
    have hpos : 0 < it.stack_list.length := List.length_pos.2 hne
    have hmem : top ∈ it.stack_list := List.mem_of_mem_getLast? hlast
    simp only [IntoIter.stackTopNext, hlast]
    refine ⟨hopts, hmax, ?_, ?_, ?_⟩
    · intro d hd
      by_cases ho : it.oldest_opened ≤ it.stack_list.dropLast.length
      · rw [List.take_append_of_le_length ho] at hd
        exact hclosed d (mem_take_dropLast hd)
      · have hall : ∀ x ∈ it.stack_list, x.isOpened = false := by
          intro x hx
          apply hclosed
          rw [List.take_of_length_le]
          · exact hx
          · rw [List.length_dropLast] at ho; omega
        have hd1 := List.take_subset _ _ hd
        rcases List.mem_append.1 hd1 with hd' | hd'
        · exact hall d (List.mem_of_mem_dropLast hd')
        · simp only [List.mem_singleton] at hd'
          subst hd'
          rw [DirList.next_isOpened]
          exact hall top hmem
    · simp only [List.length_append, List.length_dropLast,
        List.length_singleton]
      omega
    · intro hs d hd
      rw [List.drop_append_eq_append_drop] at hd
      rcases List.mem_append.1 hd with hd' | hd'
      · exact hopen hs d (mem_drop_dropLast hd')
      · rcases Nat.lt_or_ge it.oldest_opened it.stack_list.length with
          hlt | hge
        · have hd2 : d ∈ [top.next.1] := List.drop_subset _ _ hd'
          simp only [List.mem_singleton] at hd2
          subst hd2
          rw [DirList.next_isOpened]
          exact hopen hs top (getLast_mem_drop hlast hlt)
        · have hnil : ([top.next.1] : List DirList).drop
              (it.oldest_opened - it.stack_list.dropLast.length) = [] := by
            apply List.drop_eq_nil_of_le
            rw [List.length_dropLast]
            simp only [List.length_singleton]
            omega
          rw [hnil] at hd'
          simp at hd'

theorem get_deferred_proj (it : IntoIter) :
    it.get_deferred_dir.1.opts = it.opts ∧
    it.get_deferred_dir.1.stack_list = it.stack_list ∧
    it.get_deferred_dir.1.oldest_opened = it.oldest_opened ∧
    it.get_deferred_dir.1.depth = it.depth ∧
    it.get_deferred_dir.1.stack_path = it.stack_path ∧
    it.get_deferred_dir.1.start = it.start := by
  unfold IntoIter.get_deferred_dir
  dsimp only
  repeat' split
  all_goals exact ⟨rfl, rfl, rfl, rfl, rfl, rfl⟩

theorem inv_get_deferred {opts : WalkDirOptions} {it : IntoIter}
    (h : Inv opts it) : Inv opts it.get_deferred_dir.1 := by
  obtain ⟨h1, h2, h3, _, _, _⟩ := get_deferred_proj it
  exact inv_of_eq h h1 h2 h3

theorem inv_handle {opts : WalkDirOptions} {fs : FileSystem}
    {it it' : IntoIter} {dent : DirEntry} {r : Option (Except Error DirEntry)}
    (h : Inv opts it) (hh : it.handle_entry fs dent = some (it', r)) :
    Inv opts it' := by
  unfold IntoIter.handle_entry at hh
  dsimp only at hh
  split at hh
  · simp only [Option.some.injEq, Prod.mk.injEq] at hh
    exact hh.1 ▸ h
  · rename_i dent2 _
    split at hh
    · exact absurd hh (by simp)
    · rename_i it2 heq
      have h2 : Inv opts it2 := by
        by_cases hdd : dent2.ty.is_dir = true
        · rw [if_pos hdd] at heq
          exact inv_push h heq
        · rw [if_neg hdd] at heq
          exact (Option.some.inj heq) ▸ h
      split at hh
      · simp only [Option.some.injEq, Prod.mk.injEq] at hh
        exact hh.1 ▸ inv_of_eq h2 rfl rfl rfl
      · split at hh <;>
          simp only [Option.some.injEq, Prod.mk.injEq] at hh <;>
            exact hh.1 ▸ h2

theorem inv_nextLoop {opts : WalkDirOptions} (fs : FileSystem) :
    ∀ (fuel : Nat) {it : IntoIter}, Inv opts it →
      (it.nextLoop fs fuel).2 ≠ .panicked →
      Inv opts (it.nextLoop fs fuel).1 := by
  intro fuel
  induction fuel with
  | zero =>
    intro it h _
    simpa [IntoIter.nextLoop] using h
  | succ fuel ih =>
    intro it h hnp
    rw [IntoIter.nextLoop] at hnp ⊢
    by_cases hemp : it.stack_list.isEmpty = true
    · rw [if_pos hemp] at hnp ⊢
      by_cases hcf : it.opts.contents_first = true
      · rw [if_pos hcf] at hnp ⊢
        dsimp only at hnp ⊢
        have h1 : Inv opts {it with depth := it.stack_list.length} :=
          inv_of_eq h rfl rfl rfl
        have h2 := inv_get_deferred h1
        rcases hgd : ({it with depth := it.stack_list.length}).get_deferred_dir
          with ⟨it2, od⟩
        try rw [hgd] at h2
        try rw [hgd]
        cases od <;> exact h2
      · rw [if_neg hcf] at hnp ⊢
        exact h
    · rw [if_neg hemp] at hnp ⊢
      dsimp only at hnp ⊢
      have h1 : Inv opts {it with depth := it.stack_list.length} :=
        inv_of_eq h rfl rfl rfl
      have h2 := inv_get_deferred h1
      rcases hgd : ({it with depth := it.stack_list.length}).get_deferred_dir
        with ⟨it2, od⟩
      try rw [hgd] at h2
      try rw [hgd] at hnp
      try rw [hgd]
      cases od with
      | some dentry => exact h2
      | none =>
        dsimp only at hnp ⊢
        by_cases hmd : it2.opts.max_depth < it2.depth
        · rw [if_pos hmd] at hnp ⊢
          exact ih (inv_pop h2) hnp
        · rw [if_neg hmd] at hnp ⊢
          have h3 := inv_stackTopNext h2
          rcases hst : it2.stackTopNext with ⟨it3, ro⟩
          try rw [hst] at h3
          try rw [hst] at hnp
          try rw [hst]
          cases ro with
          | none => exact ih (inv_pop h3) hnp
          | some res =>
            cases res with
            | error err => exact h3
            | ok dent =>
              dsimp only at hnp ⊢
              rcases hhe : it3.handle_entry fs dent with _ | p
              · try rw [hhe] at hnp
                try rw [hhe]
                exact absurd rfl hnp
              · rcases p with ⟨it4, ro2⟩
                try rw [hhe] at hnp
                try rw [hhe]
                have h4 := inv_handle h3 hhe
                cases ro2 with
                | some result => exact h4
                | none => exact ih h4 hnp

theorem inv_next {opts : WalkDirOptions} {fs : FileSystem} {fuel : Nat}
    {it : IntoIter} (h : Inv opts it)
    (hnp : (it.next fs fuel).2 ≠ .panicked) :
    Inv opts (it.next fs fuel).1 := by
  unfold IntoIter.next at hnp ⊢
  rcases hs : it.start with _ | start
  · try rw [hs] at hnp
    try rw [hs]
    exact inv_nextLoop fs fuel h hnp
  · try rw [hs] at hnp
    try rw [hs]
    dsimp only at hnp ⊢
    have h1 : Inv opts {it with start := none} := inv_of_eq h rfl rfl rfl
    rcases hfl : DirEntry.from_link fs 0 start with e | dent
    · try rw [hfl] at hnp
      try rw [hfl]
      exact h1
    · try rw [hfl] at hnp
      try rw [hfl]
      dsimp only at hnp ⊢
      rcases hhe : ({it with start := none}).handle_entry fs dent with _ | p
      · try rw [hhe] at hnp
        try rw [hhe]
        exact absurd rfl hnp
      · rcases p with ⟨it2, ro⟩
        try rw [hhe] at hnp
        try rw [hhe]
        have h2 := inv_handle h1 hhe
        cases ro with
        | some r => exact h2
        | none => exact inv_nextLoop fs fuel h2 hnp

theorem inv_applyOp {opts : WalkDirOptions} {fs : FileSystem} {op : Op}
    {it it' : IntoIter} (h : Inv opts it)
    (ha : applyOp fs op it = some it') : Inv opts it' := by
  cases op with
  | skipOp =>
    simp only [applyOp] at ha
    exact (Option.some.inj ha) ▸ inv_skip h
  | nextOp fuel =>
    simp only [applyOp] at ha
    rcases hr : it.next fs fuel with ⟨it2, o⟩
    rw [hr] at ha
    have hgen : o ≠ NextOutcome.panicked → Inv opts it2 := by
      intro ho
      have hnp : (it.next fs fuel).2 ≠ NextOutcome.panicked := by
        rw [hr]; exact ho
      have hres := inv_next h hnp
      rw [hr] at hres
      exact hres
    cases o with
    | panicked => exact absurd ha (by simp)
    | fuelOut => exact (Option.some.inj ha) ▸ hgen (by simp)
    | done => exact (Option.some.inj ha) ▸ hgen (by simp)
    | item r => exact (Option.some.inj ha) ▸ hgen (by simp)

theorem inv_runOps {opts : WalkDirOptions} {fs : FileSystem} :
    ∀ (ops : List Op) {it it' : IntoIter}, Inv opts it →
      runOps fs ops it = some it' → Inv opts it'
  | [], it, it', h, hr => by
    simp only [runOps] at hr
    exact (Option.some.inj hr) ▸ h
  | op :: ops, it, it', h, hr => by
    simp only [runOps] at hr
    rcases ha : applyOp fs op it with _ | it2
    · rw [ha] at hr
      simp at hr
    · rw [ha] at hr
      exact inv_runOps ops (inv_applyOp h ha) hr

theorem inv_init (opts : WalkDirOptions) (root : Path)
    (hmax : 1 ≤ opts.max_open) : Inv opts (intoIter opts root) := by
  refine ⟨rfl, hmax, ?_, ?_, ?_⟩
  · intro d hd
    simp [intoIter] at hd
  · simp [intoIter]
  · intro _ d hd
    simp [intoIter] at hd

/-- C1: at every observable point reached from a fresh iterator whose
configuration has max_open at least 1, the number of Opened handles on the
stack is at most max_open; when the push accounting reaches the cap, push
closes the handle at oldest_opened (draining it into memory) and advances
oldest_opened by one; without a sorter the handle at oldest_opened is
exactly the oldest Opened one (everything below is Closed, everything from
it up is Opened); and close on an opened handle drains it into a Closed
buffer. -/
theorem c1_open_handle_cap (fs : FileSystem) (opts : WalkDirOptions)
    (root : Path) (ops : List Op) (it : IntoIter)
    (hmax : 1 ≤ opts.max_open)
    (hrun : runOps fs ops (intoIter opts root) = some it) :
    countOpen it.stack_list ≤ it.opts.max_open ∧
    (∀ dent : DirEntry,
      it.stack_list.length - it.oldest_opened = it.opts.max_open →
      it.push fs dent = some
        { it with
            stack_list :=
              listModify DirList.close it.oldest_opened it.stack_list
                ++ [pushedList fs it dent],
            oldest_opened := it.oldest_opened + 1,
            stack_path := pushedPaths it dent }) ∧
    (it.opts.sorter = none →
      ∀ i (hi : i < it.stack_list.length),
        (it.stack_list.get ⟨i, hi⟩).isOpened =
          decide (it.oldest_opened ≤ i)) ∧
    (∀ (d : Nat) rd, DirList.close (DirList.opened d rd) =
        DirList.closed ((DirList.opened d rd).collect)) := by
  have h := inv_runOps ops (inv_init opts root hmax) hrun
  obtain ⟨hopts, hmax', hclosed, hspan, hopen⟩ := h
  refine ⟨?_, ?_, ?_, ?_⟩
  · calc countOpen it.stack_list ≤
        it.stack_list.length - it.oldest_opened :=
          countOpen_le_of_take_closed _ _ hclosed
      _ ≤ it.opts.max_open := hspan
  · intro dent hcap
    have hg : it.oldest_opened ≤ it.stack_list.length := by omega
    rw [push_eq fs it dent hg, if_pos hcap]
  · intro hs i hi
    by_cases hio : it.oldest_opened ≤ i
    · rw [decide_eq_true hio]
      have hlt : i - it.oldest_opened <
          (it.stack_list.drop it.oldest_opened).length := by
        rw [List.length_drop]
        omega
      have hel : (it.stack_list.drop it.oldest_opened)[i - it.oldest_opened] =
          it.stack_list[i] := by
        rw [List.getElem_drop]
        congr 1
        omega
      have hmem : it.stack_list[i] ∈ it.stack_list.drop it.oldest_opened := by
        rw [← hel]
        exact List.getElem_mem hlt
      simpa [List.get_eq_getElem] using hopen hs _ hmem
    · rw [decide_eq_false hio]
      have hlt : i < (it.stack_list.take it.oldest_opened).length := by
        rw [List.length_take]
        omega
      have hel : (it.stack_list.take it.oldest_opened)[i] =
          it.stack_list[i] := List.getElem_take _
      have hmem : it.stack_list[i] ∈ it.stack_list.take it.oldest_opened := by
        rw [← hel]
        exact List.getElem_mem hlt
      simpa [List.get_eq_getElem] using hclosed _ hmem
  · intro d rd
    rfl

/-! The simulation argument for max_open independence (C2): two iterators
whose configurations differ only in max_open stay related by Sim and
produce identical outcomes. -/

theorem map_collect_listModify_close (n : Nat) (l : List DirList) :
    (listModify DirList.close n l).map DirList.collect =
      l.map DirList.collect :=
  map_listModify _ _ DirList.collect_close n l

theorem sim_lengths {it₁ it₂ : IntoIter} (h : Sim it₁ it₂) :
    it₁.stack_list.length = it₂.stack_list.length := by
  have hc := congrArg List.length h.2.2.1
  simpa using hc

theorem skippable_congr {it₁ it₂ : IntoIter}
    (hmin : it₁.opts.min_depth = it₂.opts.min_depth)
    (hmax : it₁.opts.max_depth = it₂.opts.max_depth)
    (hdepth : it₁.depth = it₂.depth) :
    it₁.skippable = it₂.skippable := by
  unfold IntoIter.skippable
  rw [hmin, hmax, hdepth]

theorem sim_set_depth {it₁ it₂ : IntoIter} (h : Sim it₁ it₂) :
    Sim {it₁ with depth := it₁.stack_list.length}
        {it₂ with depth := it₂.stack_list.length} := by
  have hlen := sim_lengths h
  obtain ⟨hso, hstart, hstack, hpath, _, hdef, hb1, hb2⟩ := h
  exact ⟨hso, hstart, hstack, hpath, hlen, hdef, hb1, hb2⟩

theorem sim_set_start {it₁ it₂ : IntoIter} (h : Sim it₁ it₂) :
    Sim {it₁ with start := none} {it₂ with start := none} := by
  obtain ⟨hso, _, hstack, hpath, hdepth, hdef, hb1, hb2⟩ := h
  exact ⟨hso, rfl, hstack, hpath, hdepth, hdef, hb1, hb2⟩

theorem sim_append_deferred {it₁ it₂ : IntoIter} (h : Sim it₁ it₂)
    (d : DirEntry) :
    Sim {it₁ with deferred_dirs := it₁.deferred_dirs ++ [d]}
        {it₂ with deferred_dirs := it₂.deferred_dirs ++ [d]} := by
  obtain ⟨hso, hstart, hstack, hpath, hdepth, hdef, hb1, hb2⟩ := h
  exact ⟨hso, hstart, hstack, hpath, hdepth, by rw [hdef], hb1, hb2⟩

theorem sim_push {fs : FileSystem} {it₁ it₂ : IntoIter} (dent : DirEntry)
    (h : Sim it₁ it₂) :
    ∃ j₁ j₂, it₁.push fs dent = some j₁ ∧ it₂.push fs dent = some j₂ ∧
      Sim j₁ j₂ := by
  obtain ⟨⟨hfl, hmin, hmax, hsort, hcf, hm1, hm2⟩, hstart, hstack, hpath,
    hdepth, hdef, hb1, hb2⟩ := h
  have hpl : pushedList fs it₁ dent = pushedList fs it₂ dent := by
    unfold pushedList pushedReadDir
    rw [hsort, hdepth]
  have hpp : pushedPaths it₁ dent = pushedPaths it₂ dent := by
    unfold pushedPaths
    rw [hfl, hpath]
  refine ⟨_, _, push_eq fs it₁ dent hb1, push_eq fs it₂ dent hb2, ?_⟩
  have hmc : ∀ (b₁ b₂ : Bool),
      (List.map DirList.collect
        (if b₁ = true then
          listModify DirList.close it₁.oldest_opened it₁.stack_list
        else it₁.stack_list)) =
      (List.map DirList.collect
        (if b₂ = true then
          listModify DirList.close it₂.oldest_opened it₂.stack_list
        else it₂.stack_list)) := by
    intro b₁ b₂
    cases b₁ <;> cases b₂ <;>
      simp only [if_pos, if_neg, Bool.false_eq_true, if_false, if_true,
        map_collect_listModify_close] <;> exact hstack
  by_cases hc1 :
      it₁.stack_list.length - it₁.oldest_opened = it₁.opts.max_open <;>
    by_cases hc2 :
        it₂.stack_list.length - it₂.oldest_opened = it₂.opts.max_open
  · rw [if_pos hc1, if_pos hc2]
    refine ⟨⟨hfl, hmin, hmax, hsort, hcf, hm1, hm2⟩, hstart, ?_, ?_,
      hdepth, hdef, ?_, ?_⟩
    · simp only [List.map_append, map_collect_listModify_close, hstack,
        List.map_cons, List.map_nil, hpl]
    · exact hpp
    · simp only [List.length_append, length_listModify,
        List.length_singleton]
      omega
    · simp only [List.length_append, length_listModify,
        List.length_singleton]
      omega
  · rw [if_pos hc1, if_neg hc2]
    refine ⟨⟨hfl, hmin, hmax, hsort, hcf, hm1, hm2⟩, hstart, ?_, ?_,
      hdepth, hdef, ?_, ?_⟩
    · simp only [List.map_append, map_collect_listModify_close, hstack,
        List.map_cons, List.map_nil, hpl]
    · exact hpp
    · simp only [List.length_append, length_listModify,
        List.length_singleton]
      omega
    · simp only [List.length_append, List.length_singleton]
      omega
  · rw [if_neg hc1, if_pos hc2]
    refine ⟨⟨hfl, hmin, hmax, hsort, hcf, hm1, hm2⟩, hstart, ?_, ?_,
      hdepth, hdef, ?_, ?_⟩
    · simp only [List.map_append, map_collect_listModify_close, hstack,
        List.map_cons, List.map_nil, hpl]
    · exact hpp
    · simp only [List.length_append, List.length_singleton]
      omega
    · simp only [List.length_append, length_listModify,
        List.length_singleton]
      omega
  · rw [if_neg hc1, if_neg hc2]
    refine ⟨⟨hfl, hmin, hmax, hsort, hcf, hm1, hm2⟩, hstart, ?_, ?_,
      hdepth, hdef, ?_, ?_⟩
    · simp only [List.map_append, hstack, List.map_cons, List.map_nil, hpl]
    · exact hpp
    · simp only [List.length_append, List.length_singleton]
      omega
    · simp only [List.length_append, List.length_singleton]
      omega

theorem sim_pop {it₁ it₂ : IntoIter} (h : Sim it₁ it₂) :
    Sim it₁.pop it₂.pop := by
  obtain ⟨⟨hfl, hmin, hmax, hsort, hcf, hm1, hm2⟩, hstart, hstack, hpath,
    hdepth, hdef, hb1, hb2⟩ := h
  refine ⟨⟨hfl, hmin, hmax, hsort, hcf, hm1, hm2⟩, hstart, ?_, ?_,
    hdepth, hdef, ?_, ?_⟩
  · simp only [IntoIter.pop]
    rw [List.map_dropLast, List.map_dropLast, hstack]
  · simp only [IntoIter.pop]
    rw [hfl, hpath]
  · exact Nat.min_le_right _ _
  · exact Nat.min_le_right _ _

theorem sim_stackTopNext {it₁ it₂ : IntoIter} (h : Sim it₁ it₂) :
    it₁.stackTopNext.2 = it₂.stackTopNext.2 ∧
      Sim it₁.stackTopNext.1 it₂.stackTopNext.1 := by
  have hsim := h
  obtain ⟨⟨hfl, hmin, hmax, hsort, hcf, hm1, hm2⟩, hstart, hstack, hpath,
    hdepth, hdef, hb1, hb2⟩ := h
  have hlast : it₁.stack_list.getLast?.map DirList.collect =
      it₂.stack_list.getLast?.map DirList.collect := by
    rw [← List.getLast?_map, ← List.getLast?_map, hstack]
  rcases h1 : it₁.stack_list.getLast? with _ | t₁ <;>
    rcases h2 : it₂.stack_list.getLast? with _ | t₂
  · simp only [IntoIter.stackTopNext, h1, h2]
    exact ⟨by simp, hsim⟩
  · rw [h1, h2] at hlast
    simp at hlast
  · rw [h1, h2] at hlast
    simp at hlast
  · rw [h1, h2] at hlast
    simp only [Option.map_some'] at hlast
    have hcol : t₁.collect = t₂.collect := Option.some.inj hlast
    have hne1 : it₁.stack_list ≠ [] := by
      intro hx; rw [hx] at h1; simp at h1
    have hne2 : it₂.stack_list ≠ [] := by
      intro hx; rw [hx] at h2; simp at h2
    have hp1 : 0 < it₁.stack_list.length := List.length_pos.2 hne1
    have hp2 : 0 < it₂.stack_list.length := List.length_pos.2 hne2
    have hsnd : t₁.next.2 = t₂.next.2 := by
      rw [DirList.next_snd, DirList.next_snd, hcol]
    have hfstc : t₁.next.1.collect = t₂.next.1.collect := by
      rw [DirList.next_fst, DirList.next_fst, hcol]
    simp only [IntoIter.stackTopNext, h1, h2]
    constructor
    · exact hsnd
    · refine ⟨⟨hfl, hmin, hmax, hsort, hcf, hm1, hm2⟩, hstart, ?_, hpath,
        hdepth, hdef, ?_, ?_⟩
      · simp only [List.map_append, List.map_cons, List.map_nil]
        rw [List.map_dropLast, List.map_dropLast, hstack, hfstc]
      · simp only [List.length_append, List.length_dropLast,
          List.length_singleton]
        omega
      · simp only [List.length_append, List.length_dropLast,
          List.length_singleton]
        omega

theorem sim_get_deferred {it₁ it₂ : IntoIter} (h : Sim it₁ it₂) :
    it₁.get_deferred_dir.2 = it₂.get_deferred_dir.2 ∧
      Sim it₁.get_deferred_dir.1 it₂.get_deferred_dir.1 := by
  have hsim := h
  obtain ⟨⟨hfl, hmin, hmax, hsort, hcf, hm1, hm2⟩, hstart, hstack, hpath,
    hdepth, hdef, hb1, hb2⟩ := h
  unfold IntoIter.get_deferred_dir
  by_cases hc : it₁.opts.contents_first = true
  · have hc2 : it₂.opts.contents_first = true := hcf ▸ hc
    rw [if_pos hc, if_pos hc2]
    by_cases hlt : it₁.depth < it₁.deferred_dirs.length
    · have hlt2 : it₂.depth < it₂.deferred_dirs.length := by
        rw [← hdepth, ← hdef]; exact hlt
      rw [if_pos hlt, if_pos hlt2]
      rcases hg1 : it₁.deferred_dirs.getLast? with _ | d₁
      · rw [List.getLast?_eq_none_iff] at hg1
        rw [hg1] at hlt
        simp at hlt
      · have hg2 : it₂.deferred_dirs.getLast? = some d₁ := by
          rw [← hdef]; exact hg1
        rw [hg2]
        dsimp only
        have hsd : Sim {it₁ with deferred_dirs := it₁.deferred_dirs.dropLast}
            {it₂ with deferred_dirs := it₂.deferred_dirs.dropLast} :=
          ⟨⟨hfl, hmin, hmax, hsort, hcf, hm1, hm2⟩, hstart, hstack, hpath,
            hdepth, by rw [hdef], hb1, hb2⟩
        have hskq :
            ({it₁ with deferred_dirs := it₁.deferred_dirs.dropLast}
              : IntoIter).skippable =
            ({it₂ with deferred_dirs := it₂.deferred_dirs.dropLast}
              : IntoIter).skippable :=
          skippable_congr hmin hmax hdepth
        by_cases hsk :
            (!({it₁ with deferred_dirs := it₁.deferred_dirs.dropLast}
              : IntoIter).skippable) = true
        · have hsk2 :
              (!({it₂ with deferred_dirs := it₂.deferred_dirs.dropLast}
                : IntoIter).skippable) = true := by
            rw [← hskq]; exact hsk
          rw [if_pos hsk, if_pos hsk2]
          exact ⟨rfl, hsd⟩
        · have hsk2 :
              ¬ (!({it₂ with deferred_dirs := it₂.deferred_dirs.dropLast}
                : IntoIter).skippable) = true := by
            rw [← hskq]; exact hsk
          rw [if_neg hsk, if_neg hsk2]
          exact ⟨rfl, hsd⟩
    · have hlt2 : ¬ it₂.depth < it₂.deferred_dirs.length := by
        rw [← hdepth, ← hdef]; exact hlt
      rw [if_neg hlt, if_neg hlt2]
      exact ⟨rfl, hsim⟩
  · have hc2 : ¬ it₂.opts.contents_first = true := hcf ▸ hc
    rw [if_neg hc, if_neg hc2]
    exact ⟨rfl, hsim⟩

theorem sim_follow {fs : FileSystem} {it₁ it₂ : IntoIter} (h : Sim it₁ it₂)
    (dent : DirEntry) : it₁.follow fs dent = it₂.follow fs dent := by
  obtain ⟨⟨hfl, hmin, hmax, hsort, hcf, hm1, hm2⟩, hstart, hstack, hpath,
    hdepth, hdef, hb1, hb2⟩ := h
  unfold IntoIter.follow IntoIter.check_loop
  rw [hdepth, hpath]

theorem sim_handle {fs : FileSystem} {it₁ it₂ : IntoIter} (dent : DirEntry)
    (h : Sim it₁ it₂) :
    ∃ j₁ j₂ r, it₁.handle_entry fs dent = some (j₁, r) ∧
      it₂.handle_entry fs dent = some (j₂, r) ∧ Sim j₁ j₂ := by
  have hsim := h
  have hfol := @sim_follow fs _ _ h dent
  obtain ⟨⟨hfl, hmin, hmax, hsort, hcf, hm1, hm2⟩, hstart, hstack, hpath,
    hdepth, hdef, hb1, hb2⟩ := h
  unfold IntoIter.handle_entry
  dsimp only
  have hr : (if it₁.opts.follow_links && dent.ty.is_symlink then
        it₁.follow fs dent else .ok dent) =
      (if it₂.opts.follow_links && dent.ty.is_symlink then
        it₂.follow fs dent else .ok dent) := by
    rw [hfl, hfol]
  rw [hr]
  rcases hre : (if it₂.opts.follow_links && dent.ty.is_symlink then
      it₂.follow fs dent else .ok dent) with e | dent2
  · exact ⟨it₁, it₂, some (.error e), rfl, rfl, hsim⟩
  · try dsimp only
    by_cases hdd : dent2.ty.is_dir = true
    · obtain ⟨j₁, j₂, hp1, hp2, hsimj⟩ := @sim_push fs _ _ dent2 hsim
      rw [if_pos hdd, if_pos hdd, hp1, hp2]
      try dsimp only
      have hj := hsimj
      obtain ⟨⟨hfl', hmin', hmax', hsort', hcf', hm1', hm2'⟩, hstart',
        hstack', hpath', hdepth', hdef', hb1', hb2'⟩ := hj
      have hcc : (dent2.ty.is_dir && j₁.opts.contents_first) =
          (dent2.ty.is_dir && j₂.opts.contents_first) := by rw [hcf']
      by_cases hcb : (dent2.ty.is_dir && j₁.opts.contents_first) = true
      · have hcb2 : (dent2.ty.is_dir && j₂.opts.contents_first) = true := by
          rw [← hcc]; exact hcb
        rw [if_pos hcb, if_pos hcb2]
        exact ⟨_, _, none, rfl, rfl, sim_append_deferred hsimj dent2⟩
      · have hcb2 : ¬ (dent2.ty.is_dir && j₂.opts.contents_first) = true := by
          rw [← hcc]; exact hcb
        rw [if_neg hcb, if_neg hcb2]
        have hskq : j₁.skippable = j₂.skippable :=
          skippable_congr hmin' hmax' hdepth'
        by_cases hsk : j₁.skippable = true
        · rw [if_pos hsk, if_pos (hskq ▸ hsk)]
          exact ⟨_, _, none, rfl, rfl, hsimj⟩
        · rw [if_neg hsk, if_neg (hskq ▸ hsk)]
          exact ⟨_, _, some (.ok dent2), rfl, rfl, hsimj⟩
    · have hddf : dent2.ty.is_dir = false := by
        revert hdd; cases dent2.ty.is_dir <;> simp
      rw [hddf]
      try dsimp only
      simp only [Bool.false_and, Bool.false_eq_true, if_false]
      have hskq : it₁.skippable = it₂.skippable :=
        skippable_congr hmin hmax hdepth
      by_cases hsk : it₁.skippable = true
      · rw [if_pos hsk, if_pos (hskq ▸ hsk)]
        exact ⟨it₁, it₂, none, rfl, rfl, hsim⟩
      · rw [if_neg hsk, if_neg (hskq ▸ hsk)]
        exact ⟨it₁, it₂, some (.ok dent2), rfl, rfl, hsim⟩

theorem sim_nextLoop {fs : FileSystem} :
    ∀ (fuel : Nat) {it₁ it₂ : IntoIter}, Sim it₁ it₂ →
      (it₁.nextLoop fs fuel).2 = (it₂.nextLoop fs fuel).2 ∧
        Sim (it₁.nextLoop fs fuel).1 (it₂.nextLoop fs fuel).1 := by
  intro fuel
  induction fuel with
  | zero =>
    intro it₁ it₂ h
    simp only [IntoIter.nextLoop]
    exact ⟨by simp, h⟩
  | succ fuel ih =>
    intro it₁ it₂ h
    have hsim := h
    have hlen := sim_lengths h
    obtain ⟨⟨hfl, hmin, hmax, hsort, hcf, hm1, hm2⟩, hstart, hstack, hpath,
      hdepth, hdef, hb1, hb2⟩ := h
    simp only [IntoIter.nextLoop]
    have hempf : ∀ (l : List DirList), l.isEmpty = decide (l.length = 0) := by
      intro l; cases l <;> simp
    have hemp : it₁.stack_list.isEmpty = it₂.stack_list.isEmpty := by
      rw [hempf, hempf, hlen]
    by_cases he : it₁.stack_list.isEmpty = true
    · have he2 : it₂.stack_list.isEmpty = true := hemp ▸ he
      rw [if_pos he, if_pos he2]
      by_cases hc : it₁.opts.contents_first = true
      · have hc2 : it₂.opts.contents_first = true := hcf ▸ hc
        rw [if_pos hc, if_pos hc2]
        try dsimp only
        have hsd := sim_set_depth hsim
        obtain ⟨hod, hsim2⟩ := sim_get_deferred hsd
        rcases g1 : ({it₁ with depth := it₁.stack_list.length}
            : IntoIter).get_deferred_dir with ⟨a₁, o₁⟩
        rcases g2 : ({it₂ with depth := it₂.stack_list.length}
            : IntoIter).get_deferred_dir with ⟨a₂, o₂⟩
        try rw [g1] at hod hsim2
        try rw [g2] at hod hsim2
        try rw [g1]
        try rw [g2]
        try dsimp only at hod hsim2
        subst hod
        cases o₁ with
        | some d => exact ⟨by simp, hsim2⟩
        | none => exact ⟨by simp, hsim2⟩
      · have hc2 : ¬ it₂.opts.contents_first = true := hcf ▸ hc
        rw [if_neg hc, if_neg hc2]
        exact ⟨by simp, hsim⟩
    · have he2 : ¬ it₂.stack_list.isEmpty = true := hemp ▸ he
      rw [if_neg he, if_neg he2]
      try dsimp only
      have hsd := sim_set_depth hsim
      obtain ⟨hod, hsim2⟩ := sim_get_deferred hsd
      rcases g1 : ({it₁ with depth := it₁.stack_list.length}
          : IntoIter).get_deferred_dir with ⟨a₁, o₁⟩
      rcases g2 : ({it₂ with depth := it₂.stack_list.length}
          : IntoIter).get_deferred_dir with ⟨a₂, o₂⟩
      try rw [g1] at hod hsim2
      try rw [g2] at hod hsim2
      try rw [g1]
      try rw [g2]
      try dsimp only at hod hsim2
      subst hod
      cases o₁ with
      | some d => exact ⟨by simp, hsim2⟩
      | none =>
        try dsimp only
        have hsim2' := hsim2
        obtain ⟨⟨hfl', hmin', hmax', hsort', hcf', hm1', hm2'⟩, hstart',
          hstack', hpath', hdepth', hdef', hb1', hb2'⟩ := hsim2'
        by_cases hmd : a₁.opts.max_depth < a₁.depth
        · have hmd2 : a₂.opts.max_depth < a₂.depth := by
            rw [← hmax', ← hdepth']; exact hmd
          rw [if_pos hmd, if_pos hmd2]
          exact ih (sim_pop hsim2)
        · have hmd2 : ¬ a₂.opts.max_depth < a₂.depth := by
            rw [← hmax', ← hdepth']; exact hmd
          rw [if_neg hmd, if_neg hmd2]
          obtain ⟨hsnd, hsim3⟩ := sim_stackTopNext hsim2
          rcases s1 : a₁.stackTopNext with ⟨b₁, r₁⟩
          rcases s2 : a₂.stackTopNext with ⟨b₂, r₂⟩
          try rw [s1] at hsnd hsim3
          try rw [s2] at hsnd hsim3
          try rw [s1]
          try rw [s2]
          try dsimp only at hsnd hsim3
          subst hsnd
          cases r₁ with
          | none => exact ih (sim_pop hsim3)
          | some res =>
            cases res with
            | error err => exact ⟨by simp, hsim3⟩
            | ok dent =>
              obtain ⟨j₁, j₂, r, hh1, hh2, hsim4⟩ := @sim_handle fs _ _ dent hsim3
              try dsimp only
              rw [hh1, hh2]
              try dsimp only
              cases r with
              | some result => exact ⟨by simp, hsim4⟩
              | none => exact ih hsim4

theorem sim_next {fs : FileSystem} {fuel : Nat} {it₁ it₂ : IntoIter}
    (h : Sim it₁ it₂) :
    (it₁.next fs fuel).2 = (it₂.next fs fuel).2 ∧
      Sim (it₁.next fs fuel).1 (it₂.next fs fuel).1 := by
  have hstart := h.2.1
  unfold IntoIter.next
  rw [hstart]
  rcases hs : it₂.start with _ | start
  · exact sim_nextLoop fuel h
  · dsimp only
    have hss := sim_set_start h
    rcases hfl : DirEntry.from_link fs 0 start with e | dent
    · exact ⟨rfl, hss⟩
    · obtain ⟨j₁, j₂, r, hh1, hh2, hsim'⟩ := @sim_handle fs _ _ dent hss
      try dsimp only
      rw [hh1, hh2]
      try dsimp only
      cases r with
      | some result => exact ⟨by simp, hsim'⟩
      | none => exact sim_nextLoop fuel hsim'

/-- C2: closing a handle preserves the order of its remaining items (so
any error materialised while draining stays at its original position),
and for configurations differing only in max_open (both at least 1) the
sequence of outcomes of any number of next calls is identical. -/
theorem c2_max_open_independent (fs : FileSystem) (root : Path)
    (opts : WalkDirOptions) (m n fuel : Nat)
    (h₁ : 1 ≤ opts.max_open) (h₂ : 1 ≤ m) :
    (∀ d : DirList, d.close.collect = d.collect) ∧
    runNexts fs fuel n (intoIter opts root) =
      runNexts fs fuel n (intoIter {opts with max_open := m} root) := by
  refine ⟨DirList.collect_close, ?_⟩
  have hsim0 : Sim (intoIter opts root)
      (intoIter {opts with max_open := m} root) :=
    ⟨⟨rfl, rfl, rfl, rfl, rfl, h₁, h₂⟩, rfl, rfl, rfl, rfl, rfl,
      by simp [intoIter], by simp [intoIter]⟩
  have main : ∀ (k : Nat) {a b : IntoIter}, Sim a b →
      runNexts fs fuel k a = runNexts fs fuel k b := by
    intro k
    induction k with
    | zero => intro a b _; rfl
    | succ k ih =>
      intro a b hab
      obtain ⟨ho, hs⟩ := @sim_next fs fuel _ _ hab
      simp only [runNexts]
      rcases n1 : a.next fs fuel with ⟨a', o₁⟩
      rcases n2 : b.next fs fuel with ⟨b', o₂⟩
      try rw [n1] at ho hs
      try rw [n2] at ho hs
      try rw [n1]
      try rw [n2]
      dsimp only at ho hs ⊢
      rw [ho, ih hs]
  exact main n hsim0

theorem push_proj {fs : FileSystem} {it it' : IntoIter} {dent : DirEntry}
    (hp : it.push fs dent = some it') :
    it'.opts = it.opts ∧ it'.depth = it.depth := by
  by_cases hg : it.oldest_opened ≤ it.stack_list.length
  · rw [push_eq fs it dent hg] at hp
    by_cases hcap :
        it.stack_list.length - it.oldest_opened = it.opts.max_open
    · rw [if_pos hcap] at hp
      cases Option.some.inj hp
      exact ⟨rfl, rfl⟩
    · rw [if_neg hcap] at hp
      cases Option.some.inj hp
      exact ⟨rfl, rfl⟩
  · rw [push_none fs it dent hg] at hp
    exact absurd hp (by simp)

/-- C3 (amended): the first next call stats the root (resolving a symlink
root independently of the follow_links option) and yields a record with
the root path, the stat's file type, depth 0, and follow_link = true
(from_link marks every stat-produced record as followed). -/
theorem c3_root_record (fs : FileSystem) (opts : WalkDirOptions)
    (root : Path) (md : Metadata) (fuel : Nat)
    (hcf : opts.contents_first = false)
    (hmin : opts.min_depth = 0)
    (hmd : fs.metadata root = .ok md)
    (hns : md.ty.is_symlink = false) :
    ((intoIter opts root).next fs fuel).2 =
      .item (.ok ⟨root, md.ty, true, 0, md.ino⟩) := by
  have hfl : DirEntry.from_link fs 0 root =
      .ok ⟨root, md.ty, true, 0, md.ino⟩ := by
    unfold DirEntry.from_link
    rw [hmd]
  have hhe : ∃ j, (⟨opts, none, [], [], 0, 0, []⟩ : IntoIter).handle_entry
      fs ⟨root, md.ty, true, 0, md.ino⟩ =
        some (j, some (.ok ⟨root, md.ty, true, 0, md.ino⟩)) := by
    unfold IntoIter.handle_entry
    dsimp only
    rw [hns, Bool.and_false, if_neg (by decide : ¬ false = true)]
    dsimp only
    by_cases hdir : FileType.is_dir md.ty = true
    · rw [if_pos hdir]
      obtain ⟨j, hj⟩ : ∃ j, IntoIter.push fs ⟨opts, none, [], [], 0, 0, []⟩
          ⟨root, md.ty, true, 0, md.ino⟩ = some j :=
        ⟨_, push_eq fs _ _ (Nat.le_refl 0)⟩
      rw [hj]
      obtain ⟨hjo, hjd⟩ := push_proj hj
      dsimp only
      have hcb : (FileType.is_dir md.ty && j.opts.contents_first) = false := by
        rw [hjo]
        dsimp only
        rw [hcf, Bool.and_false]
      rw [hcb, if_neg (by decide : ¬ false = true)]
      have hskip : j.skippable = false := by
        unfold IntoIter.skippable
        rw [hjd, hjo]
        dsimp only
        rw [hmin]
        simp
      rw [hskip, if_neg (by decide : ¬ false = true)]
      exact ⟨j, rfl⟩
    · rw [if_neg hdir]
      dsimp only
      have hcb : (FileType.is_dir md.ty &&
          (opts : WalkDirOptions).contents_first) = false := by
        rw [hcf, Bool.and_false]
      rw [hcb, if_neg (by decide : ¬ false = true)]
      have hskip : (⟨opts, none, [], [], 0, 0, []⟩ : IntoIter).skippable
          = false := by
        unfold IntoIter.skippable
        dsimp only
        rw [hmin]
        simp
      rw [hskip, if_neg (by decide : ¬ false = true)]
      exact ⟨_, rfl⟩
  obtain ⟨j, hj⟩ := hhe
  unfold IntoIter.next
  dsimp only [intoIter]
  rw [hfl]
  dsimp only
  rw [hj]

/-- C3 counterexample: on a concrete filesystem whose root is a plain
directory, the first yielded item is the root record and its follow_link
flag is not false, contradicting the claim that the root record's
follow_link flag is always false. -/
theorem c3_counterexample :
    ((intoIter optsDefault ["r"]).next fsDeep 20).2 =
      .item (.ok ⟨["r"], .directory, true, 0, 10⟩) ∧
    (⟨["r"], .directory, true, 0, 10⟩ : DirEntry).follow_link ≠ false := by
  exact ⟨by decide, by decide⟩

/-- C3 witness: the amended root-record theorem applied to a concrete
filesystem. -/
theorem c3_witness :
    ((intoIter optsDefault ["r"]).next fsDeep 20).2 =
      .item (.ok ⟨["r"], .directory, true, 0, 10⟩) :=
  c3_root_record fsDeep optsDefault ["r"] ⟨.directory, 10, 0⟩ 20 rfl rfl
    (by decide) (by decide)

theorem checkLoopGo_finds (fs : FileSystem) (depth : Nat) (child : Path) :
    ∀ (l1 : List Path) (anc : Path) (l2 : List Path),
      (∀ a ∈ l1, is_same_file fs a child = .ok false) →
      is_same_file fs anc child = .ok true →
      checkLoopGo fs depth child (l1 ++ anc :: l2) =
        .error ⟨depth, .loop anc child⟩
  | [], anc, l2, _, hmatch => by
    unfold checkLoopGo
    rw [List.nil_append]
    dsimp only
    rw [hmatch]
  | a :: rest, anc, l2, hnomatch, hmatch => by
    unfold checkLoopGo
    rw [List.cons_append]
    dsimp only
    rw [hnomatch a (by simp)]
    exact checkLoopGo_finds fs depth child rest anc l2
      (fun x hx => hnomatch x (by simp [hx])) hmatch

/-- C4: with follow_links on, when a symlink entry resolves to a
directory, handle_entry walks the path stack from the most recent
ancestor toward the root; at the first ancestor the identity oracle
matches, it yields a cycle error carrying that ancestor, the child path
and the current depth, does not descend (the state is unchanged, so
traversal of the remaining entries continues from the same stack). -/
theorem c4_cycle_check (fs : FileSystem) (it : IntoIter)
    (dent dent' : DirEntry) (l1 l2 : List Path) (anc : Path)
    (hfl : it.opts.follow_links = true)
    (hsym : dent.ty.is_symlink = true)
    (hlink : DirEntry.from_link fs it.depth dent.path = .ok dent')
    (hdir : dent'.ty.is_dir = true)
    (hrev : it.stack_path.reverse = l1 ++ anc :: l2)
    (hnomatch : ∀ a ∈ l1, is_same_file fs a dent'.path = .ok false)
    (hmatch : is_same_file fs anc dent'.path = .ok true) :
    it.handle_entry fs dent =
      some (it, some (.error ⟨it.depth, .loop anc dent'.path⟩)) := by
  have hfol : it.follow fs dent =
      .error ⟨it.depth, .loop anc dent'.path⟩ := by
    unfold IntoIter.follow
    rw [hlink]
    dsimp only
    rw [if_pos hdir]
    unfold IntoIter.check_loop
    rw [hrev, checkLoopGo_finds fs it.depth dent'.path l1 anc l2
      hnomatch hmatch]
  unfold IntoIter.handle_entry
  dsimp only
  rw [hfl, hsym]
  rw [if_pos (by decide : (true && true) = true), hfol]

/-- C4 witness: the cycle-check theorem applied to a concrete loop:
r/s is a symlink back to r, follow_links is on, and the iterator has
already descended into r. -/
theorem c4_witness :
    itAtLoop.handle_entry fsLoop ⟨["r", "s"], .symlink, false, 1, 15⟩ =
      some (itAtLoop,
        some (.error ⟨itAtLoop.depth, .loop ["r"] ["r", "s"]⟩)) :=
  c4_cycle_check fsLoop itAtLoop ⟨["r", "s"], .symlink, false, 1, 15⟩
    ⟨["r", "s"], .directory, true, itAtLoop.depth, 10⟩ [] [] ["r"]
    (by decide) (by decide) (by decide) (by decide) (by decide)
    (by simp) (by decide)

/-- C5: when opening a directory fails (and no sorter is set), push places
on top of the stack an Opened handle holding exactly the deferred error
(carrying the directory path and the depth); such a handle yields the
error exactly once and is exhausted afterwards; the loop yields the error
at the position of the directory's first entry, leaving the rest of the
stack intact; and on the following call the exhausted listing is popped
and iteration continues with the parent's remaining entries (no error
terminates the traversal). -/
theorem c5_open_error (fs : FileSystem) (it : IntoIter) (dent : DirEntry)
    (err : IoErr)
    (hs : it.opts.sorter = none)
    (hg : it.oldest_opened ≤ it.stack_list.length)
    (hrd : fs.read_dir dent.path = .error err) :
    (∃ it', it.push fs dent = some it' ∧
      it'.stack_list.getLast? = some (DirList.opened it.depth
        (.error (some (Error.from_path it.depth dent.path err))))) ∧
    (∀ (d : Nat) (E : Error),
      (DirList.opened d (.error (some E))).next =
        (DirList.opened d (.error none), some (.error E)) ∧
      (DirList.opened d (.error none) : DirList).next =
        (DirList.opened d (.error none), none)) ∧
    (∀ (j : IntoIter) (fuel d : Nat) (E : Error),
      j.opts.contents_first = false →
      j.stack_list.getLast? =
        some (DirList.opened d (.error (some E))) →
      ¬ j.opts.max_depth < j.stack_list.length →
      j.nextLoop fs (fuel + 1) =
        ({j with
            depth := j.stack_list.length,
            stack_list :=
              j.stack_list.dropLast ++ [DirList.opened d (.error none)]},
          .item (.error E))) ∧
    (∀ (j : IntoIter) (fuel d : Nat),
      j.opts.contents_first = false →
      j.stack_list.getLast? = some (DirList.opened d (.error none)) →
      ¬ j.opts.max_depth < j.stack_list.length →
      j.nextLoop fs (fuel + 1) =
        IntoIter.nextLoop fs fuel
          ({j with depth := j.stack_list.length}).pop) := by
  refine ⟨?_, ?_, ?_, ?_⟩
  · refine ⟨_, push_eq fs it dent hg, ?_⟩
    have hpl : pushedList fs it dent = DirList.opened it.depth
        (.error (some (Error.from_path it.depth dent.path err))) := by
      unfold pushedList pushedReadDir
      rw [hs, hrd]
    by_cases hcap :
        it.stack_list.length - it.oldest_opened = it.opts.max_open
    · rw [if_pos hcap]
      dsimp only
      rw [List.getLast?_concat, hpl]
    · rw [if_neg hcap]
      dsimp only
      rw [List.getLast?_concat, hpl]
  · intro d E
    exact ⟨rfl, rfl⟩
  · intro j fuel d E hcf hlast hmd
    have hne : j.stack_list ≠ [] := by
      intro hx
      rw [hx] at hlast
      simp at hlast
    have hemp : j.stack_list.isEmpty = false := by
      cases hx : j.stack_list with
      | nil => exact absurd hx hne
      | cons a as => rfl
    rw [IntoIter.nextLoop]
    rw [hemp]
    rw [if_neg (by decide : ¬ false = true)]
    dsimp only
    rw [IntoIter.get_deferred_dir]
    dsimp only
    rw [hcf]
    rw [if_neg (by decide : ¬ false = true)]
    dsimp only
    rw [if_neg hmd]
    rw [IntoIter.stackTopNext]
    dsimp only
    rw [hlast]
    dsimp only
    simp only [DirList.next, Option.map_some']
  · intro j fuel d hcf hlast hmd
    have hne : j.stack_list ≠ [] := by
      intro hx
      rw [hx] at hlast
      simp at hlast
    have hemp : j.stack_list.isEmpty = false := by
      cases hx : j.stack_list with
      | nil => exact absurd hx hne
      | cons a as => rfl
    rw [IntoIter.nextLoop]
    rw [hemp]
    rw [if_neg (by decide : ¬ false = true)]
    dsimp only
    rw [IntoIter.get_deferred_dir]
    dsimp only
    rw [hcf]
    rw [if_neg (by decide : ¬ false = true)]
    dsimp only
    rw [if_neg hmd]
    rw [IntoIter.stackTopNext]
    dsimp only
    rw [hlast]
    simp only [DirList.next, Option.map_none']
    try dsimp only
    -- the exhausted handle is put back on top and the loop pops it; the
    -- popped state coincides with popping the original state
    have hpopeq :
        ({j with
            depth := j.stack_list.length,
            stack_list :=
              j.stack_list.dropLast ++ [DirList.opened d (.error none)]}
          : IntoIter).pop =
        ({j with depth := j.stack_list.length} : IntoIter).pop := by
      unfold IntoIter.pop
      dsimp only
      rw [List.dropLast_concat]
    rw [hpopeq]

/-- C5 witness: the open-error theorem applied to a concrete tree in which
r/bad cannot be opened. -/
theorem c5_witness :
    (itAtBad.push fsBadDir ⟨["r", "bad"], .directory, false, 1, 41⟩).map
        (fun it' => it'.stack_list.getLast?) =
      some (some (DirList.opened itAtBad.depth
        (.error (some (Error.from_path itAtBad.depth ["r", "bad"] 13))))) := by
  obtain ⟨⟨it', hp, hl⟩, -, -, -⟩ :=
    c5_open_error fsBadDir itAtBad ⟨["r", "bad"], .directory, false, 1, 41⟩
      13 rfl (by decide) (by decide)
  rw [hp, Option.map_some', hl]

/-- C6 counterexample: contents_first is on; after yielding r/a/f,
skip_current_dir pops the listing of r/a, for which a directory record
had been deferred — yet the very next call to next yields that deferred
record, contradicting the claim that it is discarded and never yielded. -/
theorem c6_counterexample :
    itPostSkipped.deferred_dirs.getLast? =
      some ⟨["r", "a"], .directory, false, 1, 21⟩ ∧
    (itPostSkipped.next fsPost 20).2 =
      .item (.ok ⟨["r", "a"], .directory, false, 1, 21⟩) :=
  ⟨by decide, by decide⟩

/-- C6 (amended): skip_current_dir discards the top-of-stack listing (and
the matching path-stack entry) but leaves deferred_dirs untouched; a
deferred directory record for the popped listing therefore remains queued
and is yielded by a subsequent next call, as the concrete run shows. -/
theorem c6_skip_keeps_deferred :
    (∀ it : IntoIter,
      it.skip_current_dir.stack_list = it.stack_list.dropLast ∧
      it.skip_current_dir.stack_path = it.stack_path.dropLast ∧
      it.skip_current_dir.deferred_dirs = it.deferred_dirs) ∧
    (itPostSkipped.next fsPost 20).2 =
      .item (.ok ⟨["r", "a"], .directory, false, 1, 21⟩) :=
  ⟨fun _ => ⟨rfl, rfl, rfl⟩, by decide⟩

/-- C7 counterexample: with a sorter set, pushing the root directory of a
listing holding one success and one raw error produces a Closed buffer in
which the error is placed before the success, and the extended comparator
makes an error compare less than (not greater than) a success. -/
theorem c7_counterexample :
    ((intoIter optsSorted ["r"]).next fsSortErr 20).1.stack_list =
      [DirList.closed [.error ⟨1, .io none 7⟩,
        .ok ⟨["r", "z"], .regular, false, 1, 31⟩]] ∧
    extCmp cmpByIno (.error ⟨1, .io none 7⟩)
      (.ok ⟨["r", "z"], .regular, false, 1, 31⟩) = .lt :=
  ⟨by decide, by decide⟩

/-- C7 (amended): with a sorter configured, push eagerly drains the new
listing and pushes it Closed, sorted by the extended comparator in which
an error compares less than a success (so errors sort before successes)
and two errors compare equal, while two successes compare with the user
function. -/
theorem c7_sort_extended_comparator (fs : FileSystem) (it : IntoIter)
    (dent : DirEntry) (cmp : DirEntry → DirEntry → Ordering)
    (hs : it.opts.sorter = some cmp)
    (hg : it.oldest_opened ≤ it.stack_list.length) :
    (∃ it', it.push fs dent = some it' ∧
      it'.stack_list.getLast? = some (DirList.closed (sortEntries cmp
        (DirList.opened it.depth (pushedReadDir fs it dent)).collect))) ∧
    (∀ (a b : DirEntry) (e e' : Error),
      extCmp cmp (.error e) (.ok b) = .lt ∧
      extCmp cmp (.ok a) (.error e) = .gt ∧
      extCmp cmp (.error e) (.error e') = .eq ∧
      extCmp cmp (.ok a) (.ok b) = cmp a b) := by
  constructor
  · refine ⟨_, push_eq fs it dent hg, ?_⟩
    have hpl : pushedList fs it dent = DirList.closed (sortEntries cmp
        (DirList.opened it.depth (pushedReadDir fs it dent)).collect) := by
      unfold pushedList
      rw [hs]
    by_cases hcap :
        it.stack_list.length - it.oldest_opened = it.opts.max_open
    · rw [if_pos hcap]
      dsimp only
      rw [List.getLast?_concat, hpl]
    · rw [if_neg hcap]
      dsimp only
      rw [List.getLast?_concat, hpl]
  · intro a b e e'
    exact ⟨rfl, rfl, rfl, rfl⟩

/-- C7 witness: the amended sorting theorem applied to the concrete
listing with one success and one raw error. -/
theorem c7_witness :
    ((intoIter optsSorted ["r"]).push fsSortErr
        ⟨["r"], .directory, true, 0, 30⟩).map
        (fun it' => it'.stack_list.getLast?) =
      some (some (DirList.closed (sortEntries cmpByIno
        (DirList.opened (intoIter optsSorted ["r"]).depth
          (pushedReadDir fsSortErr (intoIter optsSorted ["r"])
            ⟨["r"], .directory, true, 0, 30⟩)).collect))) := by
  obtain ⟨⟨it', hp, hl⟩, -⟩ :=
    c7_sort_extended_comparator fsSortErr (intoIter optsSorted ["r"])
      ⟨["r"], .directory, true, 0, 30⟩ cmpByIno rfl (by decide)
  rw [hp, Option.map_some', hl]

/-- C8: evaluation at the failing input. After three next calls under
max_open = 1 the state has oldest_opened = 2, and two consecutive
skip_current_dir calls shrink the stack to one listing without adjusting
oldest_opened, leaving oldest_opened = 2 > 1 = stack length — violating
the invariant the claim states (and the comment in IntoIter::push relies
on); the following next call then panics in push on the checked
subtraction. -/
theorem c8_skip_breaks_oldest_opened :
    (runOps fsDeep opsSkipSkip itNarrow).map
        (fun st => (st.oldest_opened, st.stack_list.length,
          (st.next fsDeep 20).2)) =
      some (2, 1, .panicked) ∧
    ¬ (2 : Nat) ≤ 1 :=
  ⟨by decide, by decide⟩

mutual

theorem walkSameFs_parent (rootDev : Nat) :
    ∀ (t : FsNode) (pre : Path), ∀ e ∈ walkSameFs rootDev pre t,
      e.1 = pre ++ [t.name] ∨
      ∃ p nm, e.1 = p ++ [nm] ∧
        (p, rootDev, true) ∈ walkSameFs rootDev pre t
  | .file n d, pre, e, he => by
    rw [walkSameFs] at he
    simp only [List.mem_singleton] at he
    subst he
    exact Or.inl rfl
  | .dir n d cs, pre, e, he => by
    rw [walkSameFs] at he
    rcases List.mem_cons.1 he with he1 | he2
    · subst he1
      exact Or.inl rfl
    · by_cases hd : d = rootDev
      · rw [if_pos hd] at he2
        rcases walkSameFsList_parent rootDev cs (pre ++ [n]) e he2 with
          ⟨c, _, hce⟩ | ⟨p, nm, hpe, hpm⟩
        · refine Or.inr ⟨pre ++ [n], c.name, hce, ?_⟩
          rw [walkSameFs]
          subst hd
          exact List.mem_cons_self _ _
        · refine Or.inr ⟨p, nm, hpe, ?_⟩
          rw [walkSameFs]
          refine List.mem_cons_of_mem _ ?_
          rw [if_pos hd]
          exact hpm
      · rw [if_neg hd] at he2
        simp at he2

theorem walkSameFsList_parent (rootDev : Nat) :
    ∀ (cs : List FsNode) (pre : Path), ∀ e ∈ walkSameFsList rootDev pre cs,
      (∃ c ∈ cs, e.1 = pre ++ [c.name]) ∨
      ∃ p nm, e.1 = p ++ [nm] ∧
        (p, rootDev, true) ∈ walkSameFsList rootDev pre cs
  | [], pre, e, he => by
    rw [walkSameFsList] at he
    simp at he
  | c :: cs, pre, e, he => by
    rw [walkSameFsList] at he
    rcases List.mem_append.1 he with h1 | h2
    · rcases walkSameFs_parent rootDev c pre e h1 with hh | ⟨p, nm, hpe, hpm⟩
      · exact Or.inl ⟨c, by simp, hh⟩
      · refine Or.inr ⟨p, nm, hpe, ?_⟩
        rw [walkSameFsList]
        exact List.mem_append.2 (Or.inl hpm)
    · rcases walkSameFsList_parent rootDev cs pre e h2 with
        ⟨c', hc', he'⟩ | ⟨p, nm, hpe, hpm⟩
      · exact Or.inl ⟨c', by simp [hc'], he'⟩
      · refine Or.inr ⟨p, nm, hpe, ?_⟩
        rw [walkSameFsList]
        exact List.mem_append.2 (Or.inr hpm)

end

/-- C9 (amended, modelled from the spec): in same_file_system mode, a
directory whose device differs from the recorded root device yields its
own record and nothing beneath it (the descent is silently refused, no
error is produced); a directory on the root device is descended into; and
every yielded entry is either the record of the subtree root itself or a
direct child of a yielded directory that lies on the root's file system. -/
theorem c9_same_file_system (rootDev : Nat) :
    (∀ (n : String) (d : Nat) (cs : List FsNode) (pre : Path),
      d ≠ rootDev →
      walkSameFs rootDev pre (.dir n d cs) = [(pre ++ [n], d, true)]) ∧
    (∀ (n : String) (cs : List FsNode) (pre : Path),
      walkSameFs rootDev pre (.dir n rootDev cs) =
        (pre ++ [n], rootDev, true) ::
          walkSameFsList rootDev (pre ++ [n]) cs) ∧
    (∀ (t : FsNode) (pre : Path), ∀ e ∈ walkSameFs rootDev pre t,
      e.1 = pre ++ [t.name] ∨
      ∃ p nm, e.1 = p ++ [nm] ∧
        (p, rootDev, true) ∈ walkSameFs rootDev pre t) := by
  refine ⟨?_, ?_, walkSameFs_parent rootDev⟩
  · intro n d cs pre hd
    rw [walkSameFs, if_neg hd]
  · intro n cs pre
    rw [walkSameFs, if_pos rfl]

/-- C9 counterexample: the spec-modelled walk over a tree with a device
boundary yields the boundary directory r/m itself — an entry below the
root lying on a different file system — contradicting the claim's final
clause (nothing beneath r/m is yielded, though). -/
theorem c9_counterexample :
    walkSameFsTop treeBoundary =
      [(["r"], 0, true), (["r", "m"], 1, true)] ∧
    (["r", "m"], 1, true) ∈ walkSameFsTop treeBoundary ∧
    (1 : Nat) ≠ 0 :=
  ⟨by decide, by decide, by decide⟩

/-- C9 witness: the boundary behavior of the amended theorem at a
concrete directory on a foreign device. -/
theorem c9_witness :
    walkSameFs 0 [] (.dir "m" 1 []) = [(([] ++ ["m"] : Path), 1, true)] :=
  (c9_same_file_system 0).1 "m" 1 [] [] (by decide)

/-- C10: the filter_entry adapter passes every Err item of the underlying
iterator through unchanged without invoking the predicate on it (the
invocation log of the call is empty); any Ok entry the adapter yields
satisfies the predicate (so entries failing the predicate are never
yielded); and when the predicate rejects an entry whose type is a
directory, the adapter calls skip_current_dir on the underlying iterator,
logs exactly that predicate invocation, and continues from the skipped
state (the entry is neither yielded nor descended into). -/
theorem c10_filter_entry (fs : FileSystem) (innerFuel : Nat) :
    (∀ (f : FilterEntry) (it' : IntoIter) (e : Error) (fuel : Nat),
      f.it.next fs innerFuel = (it', .item (.error e)) →
      FilterEntry.next fs innerFuel (fuel + 1) f =
        ({f with it := it'}, .item (.error e), [])) ∧
    (∀ (fuel : Nat) (f : FilterEntry) (d : DirEntry),
      (FilterEntry.next fs innerFuel fuel f).2.1 = .item (.ok d) →
      f.predicate d = true) ∧
    (∀ (f : FilterEntry) (it' : IntoIter) (dent : DirEntry) (fuel : Nat),
      f.it.next fs innerFuel = (it', .item (.ok dent)) →
      f.predicate dent = false → dent.ty.is_dir = true →
      FilterEntry.next fs innerFuel (fuel + 1) f =
        ((FilterEntry.next fs innerFuel fuel
            {f with it := it'.skip_current_dir}).1,
         (FilterEntry.next fs innerFuel fuel
            {f with it := it'.skip_current_dir}).2.1,
         dent :: (FilterEntry.next fs innerFuel fuel
            {f with it := it'.skip_current_dir}).2.2)) := by
  refine ⟨?_, ?_, ?_⟩
  · intro f it' e fuel h
    rw [FilterEntry.next, h]
  · intro fuel
    induction fuel with
    | zero =>
      intro f d hres
      rw [FilterEntry.next] at hres
      simp at hres
    | succ fuel ih =>
      intro f d hres
      rw [FilterEntry.next] at hres
      rcases hn : f.it.next fs innerFuel with ⟨it', o⟩
      try rw [hn] at hres
      dsimp only at hres
      cases o with
      | panicked => simp at hres
      | fuelOut => simp at hres
      | done => simp at hres
      | item r =>
        cases r with
        | error e => simp at hres
        | ok dent =>
          dsimp only at hres
          by_cases hp : f.predicate dent = true
          · rw [if_pos hp] at hres
            dsimp only at hres
            simp only [NextOutcome.item.injEq, Except.ok.injEq] at hres
            subst hres
            exact hp
          · rw [if_neg hp] at hres
            dsimp only at hres
            by_cases hdir : dent.ty.is_dir = true
            · rw [if_pos hdir] at hres
              exact ih {f with it := it'.skip_current_dir} d hres
            · rw [if_neg hdir] at hres
              exact ih {f with it := it'} d hres
  · intro f it' dent fuel h hp hdir
    rw [FilterEntry.next, h]
    dsimp only
    rw [hp]
    rw [if_neg (by decide : ¬ false = true), if_pos hdir]

/-- C10 witness: on a filesystem whose root stat fails, the first
underlying item is an error and the adapter passes it through with an
empty predicate-invocation log. -/
theorem c10_witness :
    FilterEntry.next fsBadRoot 20 (4 + 1)
        ⟨intoIter optsDefault ["r"], fun _ => true⟩ =
      (⟨⟨optsDefault, none, [], [], 0, 0, []⟩, fun _ => true⟩,
        .item (.error ⟨0, .io (some ["r"]) 99⟩), []) :=
  (c10_filter_entry fsBadRoot 20).1
    ⟨intoIter optsDefault ["r"], fun _ => true⟩
    ⟨optsDefault, none, [], [], 0, 0, []⟩ ⟨0, .io (some ["r"]) 99⟩ 4 rfl

/-- C1 witness: the open-handle bound at a concrete reachable state of
the max_open = 1 iterator over the deep tree. -/
theorem c1_witness :
    countOpen ((runOps fsDeep [Op.nextOp 20, Op.nextOp 20] itNarrow).getD
        (intoIter optsNarrow [])).stack_list ≤
      ((runOps fsDeep [Op.nextOp 20, Op.nextOp 20] itNarrow).getD
        (intoIter optsNarrow [])).opts.max_open :=
  (c1_open_handle_cap fsDeep optsNarrow ["r"] [Op.nextOp 20, Op.nextOp 20]
    ((runOps fsDeep [Op.nextOp 20, Op.nextOp 20] itNarrow).getD
      (intoIter optsNarrow [])) (by decide) rfl).1

/-- C2 witness: the max_open independence theorem applied with max_open
1 versus 100 on the concrete deep tree. -/
theorem c2_witness :
    (∀ d : DirList, d.close.collect = d.collect) ∧
    runNexts fsDeep 20 8 (intoIter optsNarrow ["r"]) =
      runNexts fsDeep 20 8
        (intoIter {optsNarrow with max_open := 100} ["r"]) :=
  c2_max_open_independent fsDeep ["r"] optsNarrow 100 8 20 (by decide)
    (by decide)

end Walkdir
